import Mathlib

/-!
Verification of the MASX AI ETL CPU pipeline (masx_ai_etl_cpu_pipeline).

The Python sources are shallowly embedded: Python strings are lists of
Unicode code points (`PyStr`), Python floats appearing as NER scores are
modelled by `ℚ` (exact for the fixed literal scores and the comparisons
performed by the code), fallible Python code returns `Except PyErr`, and
values obtained from external services (HTTP responses, the HuggingFace
NER model, the regex library, translators, scrapers) are supplied by
explicit oracle parameters.  Every definition mirrors one Python function
of the repository, named after it; the file ends with one theorem per
audited claim.
-/

/-! ## Python string model -/

/-- A Python `str` as its list of Unicode code points. -/
abbrev PyStr := List Nat

/-- Literal notation helper: the code points of a Lean string literal. -/
def py (s : String) : PyStr := s.data.map Char.toNat

/-- Python `str.isspace` characters relevant to `str.split()` / `str.strip()`
(ASCII whitespace: space, tab, newline, carriage return, vertical tab,
form feed). -/
def pyIsSpace (c : Nat) : Bool :=
  c = 32 || c = 9 || c = 10 || c = 13 || c = 11 || c = 12

/-- Python `str.strip()`: drop whitespace from both ends. -/
def pyStrip (s : PyStr) : PyStr :=
  ((s.dropWhile pyIsSpace).reverse.dropWhile pyIsSpace).reverse

/-- Python `str.lower` on one code point (ASCII case mapping). -/
def pyLowerChar (c : Nat) : Nat := if 65 ≤ c ∧ c ≤ 90 then c + 32 else c

/-- Python `str.upper` on one code point (ASCII case mapping). -/
def pyUpperChar (c : Nat) : Nat := if 97 ≤ c ∧ c ≤ 122 then c - 32 else c

/-- Python `str.lower()`. -/
def pyLower (s : PyStr) : PyStr := s.map pyLowerChar

/-- ASCII letter test, standing in for Python's notion of a cased character
in `str.title()`. -/
def pyIsAlpha (c : Nat) : Bool := (65 ≤ c ∧ c ≤ 90) || (97 ≤ c ∧ c ≤ 122)

/-- Python `str.title()`: uppercase each letter that starts a letter run,
lowercase the rest.  The boolean argument records whether the previous
character was a letter. -/
def pyTitleAux : Bool → PyStr → PyStr
  | _, [] => []
  | prevAlpha, c :: rest =>
      if pyIsAlpha c then
        (if prevAlpha then pyLowerChar c else pyUpperChar c) :: pyTitleAux true rest
      else
        c :: pyTitleAux false rest

/-- Python `str.title()`. -/
def pyTitle (s : PyStr) : PyStr := pyTitleAux false s

/-- Python `str.split()` (no separator): split on whitespace runs, auxiliary
accumulator holding the current word reversed. -/
def pySplitAux : PyStr → PyStr → List PyStr
  | [], acc => if acc = [] then [] else [acc.reverse]
  | c :: rest, acc =>
      if pyIsSpace c then
        if acc = [] then pySplitAux rest [] else acc.reverse :: pySplitAux rest []
      else pySplitAux rest (c :: acc)

/-- Python `str.split()` with no arguments. -/
def pySplit (s : PyStr) : List PyStr := pySplitAux s []

/-- Python `str.startswith`. -/
def pyStartswith (s pre : PyStr) : Bool := pre.isPrefixOf s

/-- Lowercasing is idempotent on code points. -/
theorem pyLowerChar_pyLowerChar (c : Nat) : pyLowerChar (pyLowerChar c) = pyLowerChar c := by
  unfold pyLowerChar
  by_cases h : 65 ≤ c ∧ c ≤ 90
  · rw [if_pos h, if_neg (show ¬(65 ≤ c + 32 ∧ c + 32 ≤ 90) by omega)]
  · rw [if_neg h, if_neg h]

/-- Lowercasing absorbs uppercasing on code points. -/
theorem pyLowerChar_pyUpperChar (c : Nat) : pyLowerChar (pyUpperChar c) = pyLowerChar c := by
  unfold pyLowerChar pyUpperChar
  by_cases h1 : 97 ≤ c ∧ c ≤ 122
  · rw [if_pos h1, if_pos (show 65 ≤ c - 32 ∧ c - 32 ≤ 90 by omega),
      if_neg (show ¬(65 ≤ c ∧ c ≤ 90) by omega)]
    omega
  · rw [if_neg h1]

/-- Lowering a title-cased string equals lowering the original string. -/
theorem pyLower_pyTitleAux (b : Bool) (s : PyStr) :
    pyLower (pyTitleAux b s) = pyLower s := by
  induction s generalizing b with
  | nil => rfl
  | cons c rest ih =>
      have ih' : ∀ b', List.map pyLowerChar (pyTitleAux b' rest) = List.map pyLowerChar rest :=
        fun b' => ih b'
      unfold pyTitleAux
      split
      · split <;>
          simp [pyLower, pyLowerChar_pyLowerChar, pyLowerChar_pyUpperChar, ih']
      · simpa [pyLower] using ih false

/-- Lowering a title-cased string equals lowering the original string. -/
theorem pyLower_pyTitle (s : PyStr) : pyLower (pyTitle s) = pyLower s :=
  pyLower_pyTitleAux false s

/-! ## Entity tagger: chunking (`src/processing/entity_tragger.py`)

`EntityTagger.__init__` clamps the chunk size from below:
`self.chunk_chars = max(5_000, int(chunk_chars))`, with default `20_000`. -/

/-- Clamped chunk size as computed by `EntityTagger.__init__`. -/
def entityTagger_chunk_chars (requested : Nat) : Nat := max 5000 requested

/-- Chunk size of an `EntityTagger()` built with the default argument. -/
def chunk_chars_default : Nat := entityTagger_chunk_chars 20000

/-- Line-break code points recognised by Python `str.splitlines`
(\n, \r, \v, \f, FS, GS, RS, NEL, LINE SEPARATOR, PARAGRAPH SEPARATOR). -/
def isLineBreak (c : Nat) : Bool :=
  c = 10 || c = 13 || c = 11 || c = 12 || c = 28 || c = 29 || c = 30 ||
  c = 133 || c = 8232 || c = 8233

/-- Python `str.splitlines(keepends=True)`, auxiliary accumulator holding the
current line reversed.  A \r immediately followed by \n counts as a single
line break. -/
def splitlinesAux : PyStr → PyStr → List PyStr
  | [], acc => if acc = [] then [] else [acc.reverse]
  | [c], acc =>
      if isLineBreak c then [acc.reverse ++ [c]] else [(c :: acc).reverse]
  | c :: d :: rest, acc =>
      if c = 13 ∧ d = 10 then (acc.reverse ++ [13, 10]) :: splitlinesAux rest []
      else if isLineBreak c then (acc.reverse ++ [c]) :: splitlinesAux (d :: rest) []
      else splitlinesAux (d :: rest) (c :: acc)

/-- Python `text.splitlines(keepends=True)`. -/
def splitlines (s : PyStr) : List PyStr := splitlinesAux s []

/-- Concatenating the lines of `splitlinesAux` recovers the remaining input
(prefixed by the pending accumulator). -/
theorem splitlinesAux_flatten : ∀ l acc : PyStr,
    (splitlinesAux l acc).flatten = acc.reverse ++ l
  | [], acc => by by_cases h : acc = [] <;> simp [splitlinesAux, h]
  | [c], acc => by by_cases h : isLineBreak c <;> simp [splitlinesAux, h]
  | c :: d :: rest, acc => by
      by_cases h1 : c = 13 ∧ d = 10
      · obtain ⟨hc, hd⟩ := h1
        subst hc; subst hd
        simp [splitlinesAux, splitlinesAux_flatten rest []]
      · by_cases h2 : isLineBreak c = true
        · simp [splitlinesAux, h1, h2, splitlinesAux_flatten (d :: rest) []]
        · simp [splitlinesAux, h1, h2, splitlinesAux_flatten (d :: rest) (c :: acc)]

/-- Concatenating `splitlines` recovers the input string. -/
theorem splitlines_flatten (s : PyStr) : (splitlines s).flatten = s := by
  simpa using splitlinesAux_flatten s []

/-- When the text contains no line-break character, `splitlinesAux` yields the
whole remaining text (with the accumulator) as one line. -/
theorem splitlinesAux_no_break : ∀ l acc : PyStr, (∀ c ∈ l, isLineBreak c = false) →
    (l = [] ∧ acc = []) ∨ splitlinesAux l acc = [acc.reverse ++ l]
  | [], acc, _ => by
      by_cases h : acc = []
      · exact Or.inl ⟨rfl, h⟩
      · simp [splitlinesAux, h]
  | [c], acc, hl => by
      have hc : isLineBreak c = false := hl c (by simp)
      simp [splitlinesAux, hc]
  | c :: d :: rest, acc, hl => by
      have hc : isLineBreak c = false := hl c (by simp)
      have h1 : ¬(c = 13 ∧ d = 10) := by
        rintro ⟨hc13, _⟩; subst hc13; simp [isLineBreak] at hc
      have hrec := splitlinesAux_no_break (d :: rest) (c :: acc)
        (fun x hx => hl x (List.mem_cons_of_mem c hx))
      rcases hrec with ⟨h, _⟩ | h
      · exact absurd h (by simp)
      · refine Or.inr ?_
        rw [splitlinesAux]
        simp only [h1, if_false, hc, Bool.false_eq_true, if_false, h]
        simp

/-- One-line texts without a line break split into exactly that line. -/
theorem splitlines_no_break (s : PyStr) (hne : s ≠ [])
    (h : ∀ c ∈ s, isLineBreak c = false) : splitlines s = [s] := by
  rcases splitlinesAux_no_break s [] h with ⟨h1, _⟩ | h1
  · exact absurd h1 hne
  · simpa [splitlines] using h1

/-- Chunk-accumulation loop of `EntityTagger._iter_chunks`: walk the lines,
flush the accumulated lines when adding the next line would exceed
`chunk_chars` and the accumulator is non-empty, and flush the remainder at
the end.  `accLen` mirrors the Python running length `acc_len`. -/
def chunkLoop (chunkChars : Nat) : List PyStr → List PyStr → Nat → List PyStr
  | [], acc, _ => if acc = [] then [] else [acc.flatten]
  | line :: rest, acc, accLen =>
      if accLen + line.length > chunkChars ∧ acc ≠ [] then
        acc.flatten :: chunkLoop chunkChars rest [line] line.length
      else
        chunkLoop chunkChars rest (acc ++ [line]) (accLen + line.length)

/-- `EntityTagger._iter_chunks` (entity_tragger.py lines 282-294): texts no
longer than `chunk_chars` are yielded whole; otherwise the text is split on
lines and regrouped by `chunkLoop`. -/
def iter_chunks (chunkChars : Nat) (text : PyStr) : List PyStr :=
  if text.length ≤ chunkChars then [text]
  else chunkLoop chunkChars (splitlines text) [] 0

/-- Flattening the chunks produced by the loop recovers accumulator plus
remaining lines. -/
theorem chunkLoop_flatten (c : Nat) : ∀ (lines acc : List PyStr) (n : Nat),
    (chunkLoop c lines acc n).flatten = acc.flatten ++ lines.flatten
  | [], acc, n => by
      by_cases h : acc = [] <;> simp [chunkLoop, h]
  | line :: rest, acc, n => by
      by_cases h : n + line.length > c ∧ acc ≠ []
      · simp [chunkLoop, h, chunkLoop_flatten c rest [line] line.length]
      · simp [chunkLoop, h, chunkLoop_flatten c rest (acc ++ [line]) (n + line.length)]

/-- Chunking preserves the text: concatenating all chunks yields the input. -/
theorem iter_chunks_flatten (c : Nat) (text : PyStr) :
    (iter_chunks c text).flatten = text := by
  unfold iter_chunks
  split
  · simp
  · rw [chunkLoop_flatten]
    simpa using splitlines_flatten text

/-- Chunks produced by the loop are concatenations of consecutive whole
lines, and each is short enough or consists of a single line.  The counter
`n` mirrors the accumulated length, as in the Python `acc_len`. -/
theorem chunkLoop_groups (c : Nat) : ∀ (lines acc : List PyStr) (n : Nat),
    n = acc.flatten.length →
    (acc = [] ∨ acc.flatten.length ≤ c ∨ ∃ l, acc = [l]) →
    ∃ groups : List (List PyStr),
      groups.flatten = acc ++ lines ∧
      chunkLoop c lines acc n = groups.map List.flatten ∧
      ∀ g ∈ groups, g.flatten.length ≤ c ∨ ∃ l, g = [l]
  | [], acc, n, hn, hacc => by
      by_cases h : acc = []
      · exact ⟨[], by simp [h], by simp [chunkLoop, h], by simp⟩
      · refine ⟨[acc], by simp, by simp [chunkLoop, h], ?_⟩
        intro g hg
        simp only [List.mem_singleton] at hg
        subst hg
        rcases hacc with h1 | h1 | h1
        · exact absurd h1 h
        · exact Or.inl h1
        · exact Or.inr h1
  | line :: rest, acc, n, hn, hacc => by
      by_cases h : n + line.length > c ∧ acc ≠ []
      · obtain ⟨groups, hflat, heq, hprop⟩ :=
          chunkLoop_groups c rest [line] line.length (by simp) (Or.inr (Or.inr ⟨line, rfl⟩))
        refine ⟨acc :: groups, by simp [hflat], by simp [chunkLoop, h, heq], ?_⟩
        intro g hg
        rcases List.mem_cons.mp hg with hg | hg
        · subst hg
          rcases hacc with h1 | h1 | h1
          · exact absurd h1 h.2
          · exact Or.inl h1
          · exact Or.inr h1
        · exact hprop g hg
      · have hcase : acc = [] ∨ (acc ++ [line]).flatten.length ≤ c := by
          by_cases ha : acc = []
          · exact Or.inl ha
          · refine Or.inr ?_
            have : ¬ n + line.length > c := fun hgt => h ⟨hgt, ha⟩
            simp only [List.flatten_append, List.length_append, List.flatten_cons,
              List.flatten_nil, List.append_nil]
            omega
        have hhyp : acc ++ [line] = [] ∨ (acc ++ [line]).flatten.length ≤ c ∨
            ∃ l, acc ++ [line] = [l] := by
          rcases hcase with h1 | h1
          · exact Or.inr (Or.inr ⟨line, by simp [h1]⟩)
          · exact Or.inr (Or.inl h1)
        obtain ⟨groups, hflat, heq, hprop⟩ :=
          chunkLoop_groups c rest (acc ++ [line]) (n + line.length)
            (by simp [hn]) hhyp
        exact ⟨groups, by simp [hflat], by simp [chunkLoop, h, heq], hprop⟩

/-- Overall grouping property of `_iter_chunks`: chunk boundaries fall only
between lines, and a chunk exceeds `chunk_chars` only when it is one single
over-long line. -/
theorem iter_chunks_line_groups (c : Nat) (text : PyStr) :
    ∃ groups : List (List PyStr),
      groups.flatten = splitlines text ∧
      iter_chunks c text = groups.map List.flatten ∧
      ∀ g ∈ groups, g.flatten.length ≤ c ∨ ∃ l, g = [l] := by
  unfold iter_chunks
  split
  · refine ⟨[splitlines text], by simp, ?_, ?_⟩
    · simp [splitlines_flatten]
    · intro g hg
      simp only [List.mem_singleton] at hg
      subst hg
      rw [splitlines_flatten]
      left; assumption
  · obtain ⟨groups, hflat, heq, hprop⟩ :=
      chunkLoop_groups c (splitlines text) [] 0 (by simp) (Or.inl rfl)
    exact ⟨groups, by simpa using hflat, heq, hprop⟩

/-- A text with no line break that exceeds the chunk size is yielded as one
over-long chunk. -/
theorem iter_chunks_single_line (c : Nat) (text : PyStr) (hne : text ≠ [])
    (hlen : ¬ text.length ≤ c) (h : ∀ x ∈ text, isLineBreak x = false) :
    iter_chunks c text = [text] := by
  unfold iter_chunks
  rw [if_neg hlen, splitlines_no_break text hne h]
  simp [chunkLoop]

/-! ## Entity tagger: extraction (`src/processing/entity_tragger.py`)

The HuggingFace token-classification pipeline and the compiled patterns of
the `re` library are external to the repository; they enter as oracle
parameters (`NerModel`, `RegexLib`).  Python floats carrying confidence
scores are modelled by `ℚ`; `round(x, 4)` is modelled by round-half-to-even
at four decimal places. -/

/-- Raw entity dict emitted by the NER pipeline for one chunk; fields may be
missing (`ent.get` returns `None`). -/
structure RawEnt where
  entity_group : Option PyStr
  entity : Option PyStr
  word : Option PyStr
  score : Option ℚ

/-- Python `ent.get("entity_group") or ent.get("entity")`: the second key is
consulted when the first is missing or falsy (empty string). -/
def entLabelRaw (e : RawEnt) : Option PyStr :=
  match e.entity_group with
  | some l => if l = [] then e.entity else some l
  | none => e.entity

/-- Python `self.label_map.get(label_raw, None)` with
`label_map = {"PER": "PERSON", "ORG": "ORG", "LOC": "LOC"}`. -/
def label_map (l : PyStr) : Option PyStr :=
  if l = py "PER" then some (py "PERSON")
  else if l = py "ORG" then some (py "ORG")
  else if l = py "LOC" then some (py "LOC")
  else none

/-- Python `float(ent.get("score") or 0.0)`: a missing or falsy (zero) score
becomes `0.0`. -/
def entScore (e : RawEnt) : ℚ :=
  match e.score with
  | none => 0
  | some s => if s = 0 then 0 else s

/-- Oracle for the external NER model: `none` models the chunk-level
exception that the loop in `extract_entities` catches and skips. -/
structure NerModel where
  run : PyStr → Option (List RawEnt)

/-- Oracle for the `re` library: the list of `finditer` matches of each
compiled pattern of `EntityTagger.__init__` on a text. -/
structure RegexLib where
  re_event : PyStr → List PyStr
  re_law : PyStr → List PyStr
  re_year : PyStr → List PyStr
  re_date_num : PyStr → List PyStr
  re_money : PyStr → List PyStr
  re_quantity : PyStr → List PyStr
  re_norp : PyStr → List PyStr

/-- Contribution of one raw entity to the pair list of one label: resolve
the raw label through `label_map`, strip the word (`ent.get("word") or ""`),
skip empty words. -/
def nerPairOf (label : PyStr) (e : RawEnt) : Option (PyStr × ℚ) :=
  match entLabelRaw e with
  | none => none
  | some lr =>
      match label_map lr with
      | none => none
      | some lbl =>
          if lbl = label then
            if pyStrip (e.word.getD []) = [] then none
            else some (pyStrip (e.word.getD []), entScore e)
          else none

/-- Pairs `(word, score)` appended to `raw[label]` while `extract_entities`
loops over the chunks (a chunk whose NER call raised contributes nothing). -/
def nerPairs (ner : NerModel) (chunks : List PyStr) (label : PyStr) :
    List (PyStr × ℚ) :=
  (chunks.map (fun chunk => ((ner.run chunk).getD []).filterMap (nerPairOf label))).flatten

/-- Round half to even, the tie-breaking rule of Python `round`. -/
def roundHalfEven (q : ℚ) : ℤ :=
  if q - ⌊q⌋ < 1/2 then ⌊q⌋
  else if 1/2 < q - ⌊q⌋ then ⌊q⌋ + 1
  else if Even ⌊q⌋ then ⌊q⌋ else ⌊q⌋ + 1

/-- Python `round(x, 4)` on the `ℚ` model of the float. -/
def pyRound4 (q : ℚ) : ℚ := (roundHalfEven (q * 10000) : ℚ) / 10000

/-- Rounding keeps the unit interval. -/
theorem pyRound4_mem_unit (q : ℚ) (h0 : 0 ≤ q) (h1 : q ≤ 1) :
    0 ≤ pyRound4 q ∧ pyRound4 q ≤ 1 := by
  have hx0 : (0 : ℚ) ≤ q * 10000 := by positivity
  have hx1 : q * 10000 ≤ 10000 := by nlinarith
  have hf0 : (0 : ℤ) ≤ ⌊q * 10000⌋ := Int.floor_nonneg.mpr hx0
  have hfle : (⌊q * 10000⌋ : ℚ) ≤ q * 10000 := Int.floor_le _
  have hr : roundHalfEven (q * 10000) = ⌊q * 10000⌋ ∨
      (roundHalfEven (q * 10000) = ⌊q * 10000⌋ + 1 ∧
        1/2 ≤ q * 10000 - ⌊q * 10000⌋) := by
    unfold roundHalfEven
    split_ifs with hc1 hc2 hc3
    · exact Or.inl rfl
    · exact Or.inr ⟨rfl, by linarith⟩
    · exact Or.inl rfl
    · exact Or.inr ⟨rfl, by linarith⟩
  have hfle10 : ⌊q * 10000⌋ ≤ (10000 : ℤ) := by
    have h : (⌊q * 10000⌋ : ℚ) ≤ 10000 := le_trans hfle hx1
    exact_mod_cast h
  have hb0 : (0 : ℤ) ≤ roundHalfEven (q * 10000) := by
    rcases hr with h | ⟨h, _⟩ <;> omega
  have hb1 : roundHalfEven (q * 10000) ≤ 10000 := by
    rcases hr with h | ⟨h, hhalf⟩
    · omega
    · have hlt : ⌊q * 10000⌋ < 10000 := by
        by_contra hcon
        push_neg at hcon
        have h10 : (10000 : ℚ) ≤ (⌊q * 10000⌋ : ℚ) := by exact_mod_cast hcon
        linarith
      omega
  constructor
  · unfold pyRound4
    positivity
  · unfold pyRound4
    rw [div_le_one (by norm_num)]
    exact_mod_cast hb1

/-- Entry of the per-label accumulation dictionaries of `_accumulate`
(`counts`, `scores`, `canonicals`, all keyed by the merge key). -/
structure AccEntry where
  merge_key : PyStr
  canonical : PyStr
  count : Nat
  score : ℚ

/-- Record one pair under its merge key: first occurrence creates the entry
(canonical form title-cased, score maxed against the `defaultdict` zero),
later occurrences bump the count and keep the maximum score. -/
def accUpdate (mk w : PyStr) (s : ℚ) : List AccEntry → List AccEntry
  | [] => [⟨mk, pyTitle (pyStrip w), 1, max 0 s⟩]
  | e :: rest =>
      if e.merge_key = mk then
        { e with count := e.count + 1, score := max e.score s } :: rest
      else e :: accUpdate mk w s rest

/-- One iteration of the pair loop in `_accumulate`: skip falsy words and
falsy merge keys, then record the pair under `mk = w.strip().lower()`. -/
def accStep (st : List AccEntry) (p : PyStr × ℚ) : List AccEntry :=
  if p.1 = [] then st
  else if pyLower (pyStrip p.1) = [] then st
  else accUpdate (pyLower (pyStrip p.1)) p.1 p.2 st

/-- Pair loop of `_accumulate`, processed left to right. -/
def accumulateFrom (st : List AccEntry) : List (PyStr × ℚ) → List AccEntry
  | [] => st
  | p :: rest => accumulateFrom (accStep st p) rest

/-- Accumulation dictionaries built by `_accumulate` from a pair list. -/
def accumulate (pairs : List (PyStr × ℚ)) : List AccEntry :=
  accumulateFrom [] pairs

/-- Reference value: the maximum score over all occurrences of a merge key
in a pair list, clamped below by the `defaultdict(float)` zero. -/
def accMaxScore (mk : PyStr) : List (PyStr × ℚ) → ℚ
  | [] => 0
  | p :: rest =>
      if pyLower (pyStrip p.1) = mk then max (accMaxScore mk rest) p.2
      else accMaxScore mk rest

/-- The clamped maximum is nonnegative. -/
theorem accMaxScore_nonneg (mk : PyStr) : ∀ pairs, 0 ≤ accMaxScore mk pairs
  | [] => le_refl 0
  | p :: rest => by
      unfold accMaxScore
      split
      · exact le_trans (accMaxScore_nonneg mk rest) (le_max_left _ _)
      · exact accMaxScore_nonneg mk rest

/-- The clamped maximum of scores bounded by one is bounded by one. -/
theorem accMaxScore_le_one (mk : PyStr) : ∀ pairs : List (PyStr × ℚ),
    (∀ p ∈ pairs, p.2 ≤ 1) → accMaxScore mk pairs ≤ 1
  | [], _ => by norm_num [accMaxScore]
  | p :: rest, h => by
      unfold accMaxScore
      have hrest := accMaxScore_le_one mk rest (fun q hq => h q (List.mem_cons_of_mem p hq))
      split
      · exact max_le hrest (h p (List.mem_cons_self p rest))
      · exact hrest

/-- Python dict write: overwriting keeps the key's original position, a
fresh key is appended (insertion order). -/
def dictSet (k : PyStr) (v : ℚ) : List (PyStr × ℚ) → List (PyStr × ℚ)
  | [] => [(k, v)]
  | kv :: rest => if kv.1 = k then (k, v) :: rest else kv :: dictSet k v rest

/-- Final loop of `_accumulate`:
`buckets[label][canonical] = round(scores[mk], 4)` over the merge keys in
insertion order. -/
def bucketDict (pairs : List (PyStr × ℚ)) : List (PyStr × ℚ) :=
  (accumulate pairs).foldl (fun d e => dictSet e.canonical (pyRound4 e.score) d) []

/-- Membership in an updated accumulator: the element is the freshly created
entry (when the key was absent), the updated unique entry for the key, or an
untouched entry with a different key. -/
theorem accUpdate_mem (mk w : PyStr) (s : ℚ) :
    ∀ st : List AccEntry, (st.map AccEntry.merge_key).Nodup →
    ∀ e' ∈ accUpdate mk w s st,
      (e' = ⟨mk, pyTitle (pyStrip w), 1, max 0 s⟩ ∧ mk ∉ st.map AccEntry.merge_key) ∨
      (∃ e1 ∈ st, e1.merge_key = mk ∧
        e' = { e1 with count := e1.count + 1, score := max e1.score s }) ∨
      (e' ∈ st ∧ e'.merge_key ≠ mk)
  | [], _, e', he' => by
      simp only [accUpdate, List.mem_singleton] at he'
      exact Or.inl ⟨he', by simp⟩
  | e :: rest, hnd, e', he' => by
      unfold accUpdate at he'
      by_cases h : e.merge_key = mk
      · rw [if_pos h] at he'
        rcases List.mem_cons.mp he' with h1 | h1
        · exact Or.inr (Or.inl ⟨e, List.mem_cons_self e rest, h, h1⟩)
        · refine Or.inr (Or.inr ⟨List.mem_cons_of_mem e h1, ?_⟩)
          intro hkey
          have hmem : e'.merge_key ∈ rest.map AccEntry.merge_key :=
            List.mem_map_of_mem AccEntry.merge_key h1
          rw [hkey, ← h] at hmem
          exact (List.nodup_cons.mp (by simpa using hnd)).1 hmem
      · rw [if_neg h] at he'
        rcases List.mem_cons.mp he' with h1 | h1
        · refine Or.inr (Or.inr ⟨?_, ?_⟩)
          · rw [h1]; exact List.mem_cons_self _ rest
          · rw [h1]; exact h
        · have hnd' : (rest.map AccEntry.merge_key).Nodup :=
            (List.nodup_cons.mp (by simpa using hnd)).2
          rcases accUpdate_mem mk w s rest hnd' e' h1 with h2 | h2 | h2
          · refine Or.inl ⟨h2.1, ?_⟩
            simp only [List.map_cons, List.mem_cons, not_or]
            exact ⟨fun hc => h hc.symm, h2.2⟩
          · obtain ⟨e1, he1, hk, heq⟩ := h2
            exact Or.inr (Or.inl ⟨e1, List.mem_cons_of_mem e he1, hk, heq⟩)
          · exact Or.inr (Or.inr ⟨List.mem_cons_of_mem e h2.1, h2.2⟩)

/-- Key multiset of an updated accumulator. -/
theorem accUpdate_keys (mk w : PyStr) (s : ℚ) :
    ∀ st : List AccEntry,
      (accUpdate mk w s st).map AccEntry.merge_key =
        if mk ∈ st.map AccEntry.merge_key then st.map AccEntry.merge_key
        else st.map AccEntry.merge_key ++ [mk]
  | [] => by simp [accUpdate]
  | e :: rest => by
      unfold accUpdate
      by_cases h : e.merge_key = mk
      · rw [if_pos h]
        simp [h]
      · rw [if_neg h]
        have ih := accUpdate_keys mk w s rest
        by_cases h2 : mk ∈ rest.map AccEntry.merge_key
        · simp only [List.map_cons, ih, if_pos h2]
          rw [if_pos]
          simp only [List.mem_cons]
          exact Or.inr h2
        · simp only [List.map_cons, ih, if_neg h2]
          rw [if_neg]
          · simp
          · simp only [List.mem_cons, not_or]
            exact ⟨fun hc => h hc.symm, h2⟩

/-- Updating preserves distinctness of the merge keys. -/
theorem accUpdate_keys_nodup (mk w : PyStr) (s : ℚ) (st : List AccEntry)
    (hnd : (st.map AccEntry.merge_key).Nodup) :
    ((accUpdate mk w s st).map AccEntry.merge_key).Nodup := by
  rw [accUpdate_keys]
  split
  · exact hnd
  · next h => exact List.Nodup.append hnd (List.nodup_singleton mk) (by simpa using h)

/-- One step of the pair loop preserves distinctness of the merge keys. -/
theorem accStep_keys_nodup (st : List AccEntry) (p : PyStr × ℚ)
    (hnd : (st.map AccEntry.merge_key).Nodup) :
    ((accStep st p).map AccEntry.merge_key).Nodup := by
  unfold accStep
  split
  · exact hnd
  · split
    · exact hnd
    · exact accUpdate_keys_nodup _ _ _ st hnd

/-- The pair loop preserves distinctness of the merge keys. -/
theorem accumulateFrom_keys_nodup : ∀ (pairs : List (PyStr × ℚ)) (st : List AccEntry),
    (st.map AccEntry.merge_key).Nodup →
    ((accumulateFrom st pairs).map AccEntry.merge_key).Nodup
  | [], _, hnd => hnd
  | p :: rest, st, hnd =>
      accumulateFrom_keys_nodup rest (accStep st p) (accStep_keys_nodup st p hnd)

/-- Merge keys of the accumulation are distinct. -/
theorem accumulate_keys_nodup (pairs : List (PyStr × ℚ)) :
    ((accumulate pairs).map AccEntry.merge_key).Nodup :=
  accumulateFrom_keys_nodup pairs [] (by simp)

/-- Stripping the empty string gives the empty string. -/
theorem pyStrip_nil : pyStrip [] = [] := rfl

/-- A pair whose merge key differs leaves the running maximum unchanged. -/
theorem accMaxScore_skip (mk : PyStr) (p : PyStr × ℚ) (rest : List (PyStr × ℚ))
    (h : pyLower (pyStrip p.1) ≠ mk) :
    accMaxScore mk (p :: rest) = accMaxScore mk rest := by
  show (if pyLower (pyStrip p.1) = mk then max (accMaxScore mk rest) p.2
    else accMaxScore mk rest) = accMaxScore mk rest
  rw [if_neg h]

/-- A pair whose merge key matches feeds the running maximum. -/
theorem accMaxScore_hit (mk : PyStr) (p : PyStr × ℚ) (rest : List (PyStr × ℚ))
    (h : pyLower (pyStrip p.1) = mk) :
    accMaxScore mk (p :: rest) = max (accMaxScore mk rest) p.2 := by
  show (if pyLower (pyStrip p.1) = mk then max (accMaxScore mk rest) p.2
    else accMaxScore mk rest) = max (accMaxScore mk rest) p.2
  rw [if_pos h]

/-- Key membership after an update. -/
theorem accUpdate_mem_keys (mk w : PyStr) (s : ℚ) (st : List AccEntry) (k : PyStr) :
    k ∈ (accUpdate mk w s st).map AccEntry.merge_key ↔
      k ∈ st.map AccEntry.merge_key ∨ k = mk := by
  rw [accUpdate_keys]
  split
  · next h =>
      constructor
      · exact Or.inl
      · rintro (hk | hk)
        · exact hk
        · rw [hk]; exact h
  · simp

/-- Main invariant of the pair loop: every entry of the final accumulator
either extends an entry already present (same key and canonical form, score
maxed with the later occurrences) or was created from the pairs, in which
case its canonical form lowercases to its merge key and its score is
exactly the clamped maximum over the processed pairs. -/
theorem accumulateFrom_spec : ∀ (pairs : List (PyStr × ℚ)) (st : List AccEntry),
    (st.map AccEntry.merge_key).Nodup →
    (∀ e ∈ st, e.merge_key ≠ [] ∧ 0 ≤ e.score) →
    ∀ e ∈ accumulateFrom st pairs,
      (∃ e0 ∈ st, e.merge_key = e0.merge_key ∧ e.canonical = e0.canonical ∧
        e.score = max e0.score (accMaxScore e0.merge_key pairs)) ∨
      (e.merge_key ∉ st.map AccEntry.merge_key ∧ e.merge_key ≠ [] ∧
        pyLower e.canonical = e.merge_key ∧
        e.score = accMaxScore e.merge_key pairs)
  | [], st, _, hprop, e, he => by
      refine Or.inl ⟨e, he, rfl, rfl, ?_⟩
      have h0 : 0 ≤ e.score := (hprop e he).2
      simp [accMaxScore, max_eq_left h0]
  | p :: rest, st, hnd, hprop, e, he => by
      rw [show accumulateFrom st (p :: rest) = accumulateFrom (accStep st p) rest from rfl] at he
      by_cases hskip : p.1 = [] ∨ pyLower (pyStrip p.1) = []
      · have hstep : accStep st p = st := by
          unfold accStep
          rcases hskip with h | h
          · rw [if_pos h]
          · by_cases h1 : p.1 = []
            · rw [if_pos h1]
            · rw [if_neg h1, if_pos h]
        rw [hstep] at he
        have hmkp : pyLower (pyStrip p.1) = [] := by
          rcases hskip with h | h
          · rw [h, pyStrip_nil]; rfl
          · exact h
        rcases accumulateFrom_spec rest st hnd hprop e he with ⟨e0, h0, hk, hc, hs⟩ | h
        · have hne : pyLower (pyStrip p.1) ≠ e0.merge_key := by
            rw [hmkp]
            exact fun hc' => (hprop e0 h0).1 hc'.symm
          refine Or.inl ⟨e0, h0, hk, hc, ?_⟩
          rw [accMaxScore_skip e0.merge_key p rest hne]
          exact hs
        · have hne : pyLower (pyStrip p.1) ≠ e.merge_key := by
            rw [hmkp]
            exact fun hc' => h.2.1 hc'.symm
          refine Or.inr ⟨h.1, h.2.1, h.2.2.1, ?_⟩
          rw [accMaxScore_skip e.merge_key p rest hne]
          exact h.2.2.2
      · push_neg at hskip
        obtain ⟨hp1, hmkp⟩ := hskip
        have hstep : accStep st p = accUpdate (pyLower (pyStrip p.1)) p.1 p.2 st := by
          unfold accStep
          rw [if_neg hp1, if_neg hmkp]
        rw [hstep] at he
        set mkp := pyLower (pyStrip p.1) with hmk
        have hnd' : ((accUpdate mkp p.1 p.2 st).map AccEntry.merge_key).Nodup :=
          accUpdate_keys_nodup mkp p.1 p.2 st hnd
        have hprop' : ∀ e' ∈ accUpdate mkp p.1 p.2 st, e'.merge_key ≠ [] ∧ 0 ≤ e'.score := by
          intro e' he'
          rcases accUpdate_mem mkp p.1 p.2 st hnd e' he' with ⟨heq, _⟩ | ⟨e1, he1, hk1, heq⟩ | ⟨hm, _⟩
          · rw [heq]
            exact ⟨hmkp, le_max_left 0 p.2⟩
          · rw [heq]
            exact ⟨by simpa using hk1 ▸ hmkp, le_trans (hprop e1 he1).2 (le_max_left _ _)⟩
          · exact hprop e' hm
        rcases accumulateFrom_spec rest (accUpdate mkp p.1 p.2 st) hnd' hprop' e he with
          ⟨e0', h0', hk', hc', hs'⟩ | hfr
        · rcases accUpdate_mem mkp p.1 p.2 st hnd e0' h0' with ⟨heq, hnm⟩ | ⟨e1, he1, hk1, heq⟩ | ⟨hm, hne⟩
          · refine Or.inr ?_
            have hR : 0 ≤ accMaxScore mkp rest := accMaxScore_nonneg mkp rest
            have hmax : max (max 0 p.2) (accMaxScore mkp rest) =
                max (accMaxScore mkp rest) p.2 := by
              rw [max_assoc, max_eq_right (le_trans hR (le_max_right p.2 _)),
                max_comm]
            refine ⟨?_, ?_, ?_, ?_⟩
            · rw [hk', heq]; exact hnm
            · rw [hk', heq]; exact hmkp
            · rw [hc', heq, hk', heq]
              exact pyLower_pyTitle (pyStrip p.1)
            · rw [hs', hk', heq]
              simp only [heq] at hs' ⊢
              rw [accMaxScore_hit mkp p rest rfl]
              exact hmax
          · refine Or.inl ⟨e1, he1, ?_, ?_, ?_⟩
            · rw [hk', heq]
            · rw [hc', heq]
            · rw [hs', heq]
              simp only
              rw [hk1, accMaxScore_hit mkp p rest rfl, max_comm (accMaxScore mkp rest) p.2,
                ← max_assoc]
          · refine Or.inl ⟨e0', hm, hk', hc', ?_⟩
            rw [hs', accMaxScore_skip e0'.merge_key p rest (fun hc'' => hne hc''.symm)]
        · refine Or.inr ⟨?_, hfr.2.1, hfr.2.2.1, ?_⟩
          · intro hmem
            exact hfr.1 ((accUpdate_mem_keys mkp p.1 p.2 st e.merge_key).mpr (Or.inl hmem))
          · have hnemk : e.merge_key ≠ mkp := by
              intro hc''
              exact hfr.1 ((accUpdate_mem_keys mkp p.1 p.2 st e.merge_key).mpr (Or.inr hc''))
            rw [accMaxScore_skip e.merge_key p rest (fun hc'' => hnemk hc''.symm)]
            exact hfr.2.2.2

/-- Entries of `_accumulate`: nonempty merge key, canonical form lowercasing
to the merge key, score equal to the clamped per-key maximum. -/
theorem accumulate_spec (pairs : List (PyStr × ℚ)) : ∀ e ∈ accumulate pairs,
    e.merge_key ≠ [] ∧ pyLower e.canonical = e.merge_key ∧
    e.score = accMaxScore e.merge_key pairs := by
  intro e he
  rcases accumulateFrom_spec pairs [] (by simp) (by simp) e he with ⟨e0, h0, _⟩ | h
  · simp at h0
  · exact ⟨h.2.1, h.2.2.1, h.2.2.2⟩

/-- Canonical forms of distinct accumulator entries differ even after
lowercasing. -/
theorem accumulate_canonicals_pairwise (pairs : List (PyStr × ℚ)) :
    List.Pairwise (fun a b : AccEntry => pyLower a.canonical ≠ pyLower b.canonical)
      (accumulate pairs) := by
  have hnd := accumulate_keys_nodup pairs
  rw [List.Nodup, List.pairwise_map] at hnd
  refine List.Pairwise.imp_of_mem ?_ hnd
  intro a b ha hb hne
  rw [(accumulate_spec pairs a ha).2.1, (accumulate_spec pairs b hb).2.1]
  exact hne

/-- One entity entry of a bucket list (`EntityAttributes` in
`src/models/entity_model.py`). -/
structure EntityAttributesE where
  text : PyStr
  score : ℚ
deriving DecidableEq

/-- Sort-key order of `_list` in `extract_entities`: Python sorts ascending
by the tuple `(-e.score, e.text.lower())`, that is, descending score with
ties broken by ascending lowercased text (code-point lexicographic). -/
def entKeyLe (a b : EntityAttributesE) : Prop :=
  b.score < a.score ∨ (a.score = b.score ∧ pyLower a.text ≤ pyLower b.text)

instance : DecidableRel entKeyLe := fun a b => by unfold entKeyLe; infer_instance

instance : IsTotal EntityAttributesE entKeyLe where
  total a b := by
    rcases lt_trichotomy a.score b.score with h | h | h
    · exact Or.inr (Or.inl h)
    · rcases le_total (pyLower a.text) (pyLower b.text) with ht | ht
      · exact Or.inl (Or.inr ⟨h, ht⟩)
      · exact Or.inr (Or.inr ⟨h.symm, ht⟩)
    · exact Or.inl (Or.inl h)

instance : IsTrans EntityAttributesE entKeyLe where
  trans a b c hab hbc := by
    rcases hab with h1 | ⟨h1e, h1t⟩
    · rcases hbc with h2 | ⟨h2e, h2t⟩
      · exact Or.inl (lt_trans h2 h1)
      · exact Or.inl (h2e ▸ h1)
    · rcases hbc with h2 | ⟨h2e, h2t⟩
      · exact Or.inl (h1e ▸ h2)
      · exact Or.inr ⟨h1e.trans h2e, le_trans h1t h2t⟩

/-- Bucket construction of `_list`: turn the canonical-to-score dict into
`EntityAttributes` records and sort.  Python list.sort is a stable sort for
the key order `entKeyLe`; a stable sort for a fixed total preorder is unique
as a function, so insertion sort computes exactly Python's result. -/
def listify (mapping : List (PyStr × ℚ)) : List EntityAttributesE :=
  List.insertionSort entKeyLe
    (mapping.map (fun kv => { text := kv.1, score := kv.2 }))

/-- Setting a fresh key appends to the dict. -/
theorem dictSet_of_not_mem (k : PyStr) (v : ℚ) :
    ∀ d : List (PyStr × ℚ), k ∉ d.map Prod.fst → dictSet k v d = d ++ [(k, v)]
  | [], _ => rfl
  | kv :: rest, hk => by
      have h1 : kv.1 ≠ k := by
        intro hc
        exact hk (by simp [hc])
      have h2 : k ∉ rest.map Prod.fst := fun hc => hk (by simp [hc])
      simp [dictSet, h1, dictSet_of_not_mem k v rest h2]

/-- Folding dict writes over entries with pairwise-distinct canonical forms
keyed by canonicals appends them in order. -/
theorem dictFold_append : ∀ (entries : List AccEntry) (d : List (PyStr × ℚ)),
    (∀ e ∈ entries, e.canonical ∉ d.map Prod.fst) →
    List.Pairwise (fun a b : AccEntry => a.canonical ≠ b.canonical) entries →
    entries.foldl (fun d e => dictSet e.canonical (pyRound4 e.score) d) d =
      d ++ entries.map (fun e => (e.canonical, pyRound4 e.score))
  | [], d, _, _ => by simp
  | e :: rest, d, hd, hpw => by
      have hstep : dictSet e.canonical (pyRound4 e.score) d = d ++ [(e.canonical, pyRound4 e.score)] :=
        dictSet_of_not_mem _ _ d (hd e (List.mem_cons_self e rest))
      have hdisj : ∀ e' ∈ rest, e'.canonical ∉ (d ++ [(e.canonical, pyRound4 e.score)]).map Prod.fst := by
        intro e' he'
        simp only [List.map_append, List.mem_append, List.map_cons, List.map_nil,
          List.mem_singleton, not_or]
        refine ⟨hd e' (List.mem_cons_of_mem e he'), ?_⟩
        have := (List.pairwise_cons.mp hpw).1 e' he'
        simpa using fun hc => this hc.symm
      have ih := dictFold_append rest (d ++ [(e.canonical, pyRound4 e.score)]) hdisj
        (List.pairwise_cons.mp hpw).2
      simp only [List.foldl_cons, hstep, ih, List.map_cons]
      simp

/-- Under the canonical-distinctness invariant, the bucket dict is exactly
the accumulator entries in insertion order. -/
theorem bucketDict_eq_map (pairs : List (PyStr × ℚ)) :
    bucketDict pairs =
      (accumulate pairs).map (fun e => (e.canonical, pyRound4 e.score)) := by
  unfold bucketDict
  have hpw : List.Pairwise (fun a b : AccEntry => a.canonical ≠ b.canonical)
      (accumulate pairs) := by
    refine List.Pairwise.imp ?_ (accumulate_canonicals_pairwise pairs)
    intro a b h hc
    exact h (by rw [hc])
  simpa using dictFold_append (accumulate pairs) [] (by simp) hpw

/-- Properties of a bucket list built from a pair list: sorted by descending
score with lowercase-text tie-break, lowercased texts pairwise distinct,
scores in the unit interval when the input scores are at most one, and every
score the rounded clamped maximum over its merge key's occurrences. -/
theorem listify_bucketDict_props (pairs : List (PyStr × ℚ))
    (hbound : ∀ p ∈ pairs, p.2 ≤ 1) :
    List.Pairwise entKeyLe (listify (bucketDict pairs)) ∧
    List.Pairwise (fun a b : EntityAttributesE => pyLower a.text ≠ pyLower b.text)
      (listify (bucketDict pairs)) ∧
    (∀ a ∈ listify (bucketDict pairs), 0 ≤ a.score ∧ a.score ≤ 1) ∧
    (∀ a ∈ listify (bucketDict pairs),
      a.score = pyRound4 (accMaxScore (pyLower a.text) pairs)) := by
  have hperm : (listify (bucketDict pairs)).Perm
      ((bucketDict pairs).map (fun kv => ({ text := kv.1, score := kv.2 } : EntityAttributesE))) :=
    List.perm_insertionSort entKeyLe _
  have hmem : ∀ a ∈ listify (bucketDict pairs),
      ∃ e ∈ accumulate pairs, a = { text := e.canonical, score := pyRound4 e.score } := by
    intro a ha
    have := hperm.mem_iff.mp ha
    rw [bucketDict_eq_map, List.map_map] at this
    obtain ⟨e, he, heq⟩ := List.mem_map.mp this
    exact ⟨e, he, heq.symm⟩
  refine ⟨List.sorted_insertionSort entKeyLe _, ?_, ?_, ?_⟩
  · have hpw : List.Pairwise (fun a b : EntityAttributesE => pyLower a.text ≠ pyLower b.text)
        ((bucketDict pairs).map (fun kv => ({ text := kv.1, score := kv.2 } : EntityAttributesE))) := by
      rw [bucketDict_eq_map, List.map_map]
      rw [List.pairwise_map]
      exact accumulate_canonicals_pairwise pairs
    exact hpw.perm hperm.symm (fun h hc => h hc.symm)
  · intro a ha
    obtain ⟨e, he, heq⟩ := hmem a ha
    obtain ⟨hmk, hlow, hsc⟩ := accumulate_spec pairs e he
    have h0 : 0 ≤ accMaxScore e.merge_key pairs := accMaxScore_nonneg _ _
    have h1 : accMaxScore e.merge_key pairs ≤ 1 := accMaxScore_le_one _ _ hbound
    have hres := pyRound4_mem_unit _ h0 h1
    rw [heq]
    show 0 ≤ pyRound4 e.score ∧ pyRound4 e.score ≤ 1
    rw [hsc]
    exact hres
  · intro a ha
    obtain ⟨e, he, heq⟩ := hmem a ha
    obtain ⟨hmk, hlow, hsc⟩ := accumulate_spec pairs e he
    rw [heq]
    simp only
    rw [hlow, hsc]

/-- A produced pair carries the entity's score. -/
theorem nerPairOf_score (label : PyStr) (e : RawEnt) (p : PyStr × ℚ)
    (h : nerPairOf label e = some p) : p.2 = entScore e := by
  unfold nerPairOf at h
  split at h
  · exact absurd h (by simp)
  · split at h
    · exact absurd h (by simp)
    · split_ifs at h
      cases h
      rfl

/-- Contract of the black-box NER model assumed by the pipeline: confidence
scores are probabilities, in particular at most one. -/
def NerScoresBounded (ner : NerModel) : Prop :=
  ∀ chunk ents, ner.run chunk = some ents → ∀ e ∈ ents, entScore e ≤ 1

/-- Under the model contract, all NER pair scores are at most one. -/
theorem nerPairs_bound (ner : NerModel) (chunks : List PyStr) (label : PyStr)
    (hb : NerScoresBounded ner) : ∀ p ∈ nerPairs ner chunks label, p.2 ≤ 1 := by
  intro p hp
  unfold nerPairs at hp
  rw [List.mem_flatten] at hp
  obtain ⟨l, hl, hpl⟩ := hp
  rw [List.mem_map] at hl
  obtain ⟨chunk, _, hchunk⟩ := hl
  rw [← hchunk] at hpl
  rw [List.mem_filterMap] at hpl
  obtain ⟨e, he, hpe⟩ := hpl
  rw [nerPairOf_score label e p hpe]
  rcases hrun : ner.run chunk with _ | ents
  · rw [hrun] at he; exact absurd he (by simp)
  · rw [hrun] at he
    exact hb chunk ents hrun e (by simpa using he)

/-- Per-label dedupe dict of `_extract_extras`: `mx = defaultdict(float)`
maxing the score per exact text (the first access clamps at the default
zero). -/
def dictSetMax (k : PyStr) (v : ℚ) : List (PyStr × ℚ) → List (PyStr × ℚ)
  | [] => [(k, max 0 v)]
  | kv :: rest =>
      if kv.1 = k then (kv.1, max kv.2 v) :: rest else kv :: dictSetMax k v rest

/-- Per-label dedupe of `_extract_extras`: max per exact text, then
`round(v, 4)`. -/
def dedupeMax (items : List (PyStr × ℚ)) : List (PyStr × ℚ) :=
  (items.foldl (fun d p => dictSetMax p.1 p.2 d) []).map
    (fun kv => (kv.1, pyRound4 kv.2))

/-- A max-update keeps dict values inside the unit interval. -/
theorem dictSetMax_bound (k : PyStr) (v : ℚ) (hv : v ≤ 1) :
    ∀ d : List (PyStr × ℚ), (∀ kv ∈ d, 0 ≤ kv.2 ∧ kv.2 ≤ 1) →
    ∀ kv ∈ dictSetMax k v d, 0 ≤ kv.2 ∧ kv.2 ≤ 1
  | [], _, kv, hkv => by
      simp only [dictSetMax, List.mem_singleton] at hkv
      rw [hkv]
      exact ⟨le_max_left 0 v, max_le (by norm_num) hv⟩
  | kv0 :: rest, hd, kv, hkv => by
      unfold dictSetMax at hkv
      by_cases h : kv0.1 = k
      · rw [if_pos h] at hkv
        rcases List.mem_cons.mp hkv with h1 | h1
        · rw [h1]
          have h0 := hd kv0 (List.mem_cons_self kv0 rest)
          exact ⟨le_trans h0.1 (le_max_left _ _), max_le h0.2 hv⟩
        · exact hd kv (List.mem_cons_of_mem kv0 h1)
      · rw [if_neg h] at hkv
        rcases List.mem_cons.mp hkv with h1 | h1
        · rw [h1]; exact hd kv0 (List.mem_cons_self kv0 rest)
        · exact dictSetMax_bound k v hv rest
            (fun kv' hkv' => hd kv' (List.mem_cons_of_mem kv0 hkv')) kv h1

/-- Folding max-updates keeps dict values inside the unit interval. -/
theorem dictSetMax_fold_bound : ∀ (items : List (PyStr × ℚ)),
    (∀ p ∈ items, p.2 ≤ 1) →
    ∀ (d : List (PyStr × ℚ)), (∀ kv ∈ d, 0 ≤ kv.2 ∧ kv.2 ≤ 1) →
    ∀ kv ∈ items.foldl (fun d p => dictSetMax p.1 p.2 d) d, 0 ≤ kv.2 ∧ kv.2 ≤ 1
  | [], _, d, hd, kv, hkv => hd kv hkv
  | p :: rest, hitems, d, hd, kv, hkv => by
      refine dictSetMax_fold_bound rest
        (fun q hq => hitems q (List.mem_cons_of_mem p hq))
        (dictSetMax p.1 p.2 d)
        (dictSetMax_bound p.1 p.2 (hitems p (List.mem_cons_self p rest)) d hd)
        kv hkv

/-- Deduped extras carry scores at most one. -/
theorem dedupeMax_bound (items : List (PyStr × ℚ)) (h : ∀ p ∈ items, p.2 ≤ 1) :
    ∀ p ∈ dedupeMax items, p.2 ≤ 1 := by
  intro p hp
  unfold dedupeMax at hp
  rw [List.mem_map] at hp
  obtain ⟨kv, hkv, heq⟩ := hp
  have hb := dictSetMax_fold_bound items h [] (by simp) kv hkv
  rw [← heq]
  exact (pyRound4_mem_unit kv.2 hb.1 hb.2).2

/-- Identifier of the NER model (`EntityTagger.MODEL_ID`). -/
def MODEL_ID : PyStr := py "Davlan/distilbert-base-multilingual-cased-ner-hrl"

/-- Regex layer `_extract_extras`: fixed per-category scores, strip-and-drop
only for EVENT and LAW, then per-label max-dedupe with rounding.  The result
is presented per label (the Python `found` defaultdict keyed by label). -/
def extract_extras (rx : RegexLib) (text : PyStr) (label : PyStr) :
    List (PyStr × ℚ) :=
  if label = py "EVENT" then
    dedupeMax ((rx.re_event text).filterMap (fun m =>
      if pyStrip m = [] then none else some (pyStrip m, 95/100)))
  else if label = py "LAW" then
    dedupeMax ((rx.re_law text).filterMap (fun m =>
      if pyStrip m = [] then none else some (pyStrip m, 90/100)))
  else if label = py "DATE" then
    dedupeMax ((rx.re_year text).map (fun m => (m, 99/100)) ++
      (rx.re_date_num text).map (fun m => (m, 97/100)))
  else if label = py "MONEY" then
    dedupeMax ((rx.re_money text).map (fun m => (m, 95/100)))
  else if label = py "QUANTITY" then
    dedupeMax ((rx.re_quantity text).map (fun m => (m, 90/100)))
  else if label = py "NORP" then
    dedupeMax ((rx.re_norp text).map (fun m => (m, 85/100)))
  else []

/-- Extras carry scores at most one. -/
theorem extract_extras_bound (rx : RegexLib) (text : PyStr) (label : PyStr) :
    ∀ p ∈ extract_extras rx text label, p.2 ≤ 1 := by
  intro p hp
  unfold extract_extras at hp
  split_ifs at hp <;>
    first
      | exact dedupeMax_bound _ (by
          intro q hq
          rcases List.mem_filterMap.mp hq with ⟨m, _, hm⟩
          split_ifs at hm
          cases hm
          norm_num) p hp
      | exact dedupeMax_bound _ (by
          intro q hq
          rcases List.mem_map.mp hq with ⟨m, _, hm⟩
          rw [← hm]
          norm_num) p hp
      | exact dedupeMax_bound _ (by
          intro q hq
          rcases List.mem_append.mp hq with hq1 | hq1 <;>
            · rcases List.mem_map.mp hq1 with ⟨m, _, hm⟩
              rw [← hm]
              norm_num) p hp
      | exact absurd hp (by simp)

/-- Extraction metadata (`MetaAttributes` in `src/models/entity_model.py`). -/
structure MetaAttributesE where
  chars : Nat
  score : ℚ
  model : PyStr
  chunks : Nat

/-- Fixed label buckets (`EntityModel` in `src/models/entity_model.py`). -/
structure EntityModelE where
  PERSON : List EntityAttributesE
  ORG : List EntityAttributesE
  GPE : List EntityAttributesE
  LOC : List EntityAttributesE
  NORP : List EntityAttributesE
  EVENT : List EntityAttributesE
  LAW : List EntityAttributesE
  DATE : List EntityAttributesE
  MONEY : List EntityAttributesE
  QUANTITY : List EntityAttributesE
  meta : MetaAttributesE

/-- `EntityTagger.extract_entities` (entity_tragger.py lines 85-224).  The
guard covers `not self.enabled or not text or not self.ner` (the third
disjunct: the model failed to load).  PERSON, ORG and LOC buckets come from
the chunked NER pass, GPE from `_accumulate([], "GPE")`, the remaining six
from the whole-text regex layer; every bucket goes through `_accumulate` and
`_list`.  The meta score is the rounded mean over all bucket dict values
(zero when there are none). -/
def extract_entities (ner : NerModel) (rx : RegexLib) (enabled nerLoaded : Bool)
    (chunkChars : Nat) (text : PyStr) : EntityModelE :=
  if ¬enabled ∨ text = [] ∨ ¬nerLoaded then
    { PERSON := [], ORG := [], GPE := [], LOC := [], NORP := [], EVENT := [],
      LAW := [], DATE := [], MONEY := [], QUANTITY := [],
      meta := { chars := text.length, score := 0, model := MODEL_ID, chunks := 0 } }
  else
    let chunks := iter_chunks chunkChars text
    let dPERSON := bucketDict (nerPairs ner chunks (py "PERSON"))
    let dORG := bucketDict (nerPairs ner chunks (py "ORG"))
    let dLOC := bucketDict (nerPairs ner chunks (py "LOC"))
    let dGPE := bucketDict []
    let dEVENT := bucketDict (extract_extras rx text (py "EVENT"))
    let dLAW := bucketDict (extract_extras rx text (py "LAW"))
    let dDATE := bucketDict (extract_extras rx text (py "DATE"))
    let dMONEY := bucketDict (extract_extras rx text (py "MONEY"))
    let dQUANTITY := bucketDict (extract_extras rx text (py "QUANTITY"))
    let dNORP := bucketDict (extract_extras rx text (py "NORP"))
    let allScores := (dPERSON ++ dORG ++ dGPE ++ dLOC ++ dNORP ++ dEVENT ++
      dLAW ++ dDATE ++ dMONEY ++ dQUANTITY).map Prod.snd
    let overall : ℚ :=
      if allScores = [] then 0 else pyRound4 (allScores.sum / allScores.length)
    { PERSON := listify dPERSON, ORG := listify dORG, GPE := listify dGPE,
      LOC := listify dLOC, NORP := listify dNORP, EVENT := listify dEVENT,
      LAW := listify dLAW, DATE := listify dDATE, MONEY := listify dMONEY,
      QUANTITY := listify dQUANTITY,
      meta := { chars := text.length, score := overall, model := MODEL_ID,
                chunks := chunks.length } }

/-- The ten fixed bucket labels of `EntityModel`. -/
inductive TagLabel
  | PERSON | ORG | GPE | LOC | NORP | EVENT | LAW | DATE | MONEY | QUANTITY
deriving DecidableEq

/-- Bucket selected by a label. -/
def bucketOf (m : EntityModelE) : TagLabel → List EntityAttributesE
  | .PERSON => m.PERSON
  | .ORG => m.ORG
  | .GPE => m.GPE
  | .LOC => m.LOC
  | .NORP => m.NORP
  | .EVENT => m.EVENT
  | .LAW => m.LAW
  | .DATE => m.DATE
  | .MONEY => m.MONEY
  | .QUANTITY => m.QUANTITY

/-- Pair list feeding each bucket of `extract_entities`. -/
def bucket_source_pairs (ner : NerModel) (rx : RegexLib) (chunkChars : Nat)
    (text : PyStr) : TagLabel → List (PyStr × ℚ)
  | .PERSON => nerPairs ner (iter_chunks chunkChars text) (py "PERSON")
  | .ORG => nerPairs ner (iter_chunks chunkChars text) (py "ORG")
  | .GPE => []
  | .LOC => nerPairs ner (iter_chunks chunkChars text) (py "LOC")
  | .NORP => extract_extras rx text (py "NORP")
  | .EVENT => extract_extras rx text (py "EVENT")
  | .LAW => extract_extras rx text (py "LAW")
  | .DATE => extract_extras rx text (py "DATE")
  | .MONEY => extract_extras rx text (py "MONEY")
  | .QUANTITY => extract_extras rx text (py "QUANTITY")

/-- Every bucket of the result is either the trivially empty bucket of the
disabled guard or the accumulated, deduped and sorted form of its source
pair list. -/
theorem extract_entities_bucket_cases (ner : NerModel) (rx : RegexLib)
    (enabled nerLoaded : Bool) (chunkChars : Nat) (text : PyStr) (label : TagLabel) :
    bucketOf (extract_entities ner rx enabled nerLoaded chunkChars text) label = [] ∨
    bucketOf (extract_entities ner rx enabled nerLoaded chunkChars text) label =
      listify (bucketDict (bucket_source_pairs ner rx chunkChars text label)) := by
  unfold extract_entities
  split
  · cases label <;> exact Or.inl rfl
  · cases label <;> exact Or.inr rfl

/-- Scores feeding any bucket are at most one, given the NER contract. -/
theorem bucket_source_pairs_bound (ner : NerModel) (rx : RegexLib)
    (chunkChars : Nat) (text : PyStr) (label : TagLabel)
    (hb : NerScoresBounded ner) :
    ∀ p ∈ bucket_source_pairs ner rx chunkChars text label, p.2 ≤ 1 := by
  cases label <;>
    first
      | exact nerPairs_bound ner _ _ hb
      | exact extract_extras_bound rx text _
      | exact fun p hp => absurd hp (List.not_mem_nil p)

/-! ## Translation manager (`src/services/translation_manager.py`)

The deep-translator provider libraries, the language validators and the
wall clock are external; one `_try_provider` run is summarised by a
`BodyOutcome` oracle per provider, and `time.time()` by a `now` parameter.
The `os.environ` proxy lines only mutate process environment variables and
are not modelled. -/

/-- The provider enum (`Providers`). -/
inductive ProvidersE
  | google | mymemory | freeapi
deriving DecidableEq

/-- `FAIL_THRESHOLD = 3`. -/
def FAIL_THRESHOLD : Nat := 3

/-- `COOLDOWN_SEC = 120`. -/
def COOLDOWN_SEC : ℚ := 120

/-- `CACHE_SIZE = 100_000`. -/
def CACHE_SIZE : Nat := 100000

/-- Circuit breaker state (`Circuit.__init__`). -/
structure CircuitE where
  fail_count : Nat
  open_until : ℚ

/-- `Circuit.allow`: calls pass once the wall clock reaches `open_until`. -/
def circuitAllow (c : CircuitE) (now : ℚ) : Bool := decide (c.open_until ≤ now)

/-- `Circuit.success`: reset. -/
def circuitSuccess : CircuitE := { fail_count := 0, open_until := 0 }

/-- `Circuit.failure`: bump the count; at the threshold, open for the
cooldown. -/
def circuitFailure (c : CircuitE) (now : ℚ) : CircuitE :=
  if c.fail_count + 1 ≥ FAIL_THRESHOLD then
    { fail_count := c.fail_count + 1, open_until := now + COOLDOWN_SEC }
  else
    { fail_count := c.fail_count + 1, open_until := c.open_until }

/-- Python value produced by a provider call as seen by `_try_provider`
(`nonString` covers any non-`str` object including `None`). -/
inductive PyVal
  | nonString
  | str (s : PyStr)

/-- Summary of one `_try_provider` body run, determined by the external
translator library and the language/length pre-checks. -/
inductive BodyOutcome
  | langNotSupported
  | lengthNotSupported
  | raises
  | result (v : PyVal)

/-- Exceptions flowing inside `_try_provider`. -/
inductive TransExc
  | langNotSupported
  | lengthNotSupported
  | generic

/-- Body of `_try_provider` up to its own handlers: an empty or non-string
result raises (`RuntimeError: returned empty/non-string result`). -/
def try_provider_body : BodyOutcome → Except TransExc PyStr
  | .langNotSupported => .error .langNotSupported
  | .lengthNotSupported => .error .lengthNotSupported
  | .raises => .error .generic
  | .result .nonString => .error .generic
  | .result (.str s) => if s = [] then .error .generic else .ok s

/-- `_try_provider` with its handlers (translation_manager.py lines 182-246):
the language and length exceptions return `None` silently; any other
exception marks a failure and disables the provider for the session when the
circuit has just opened; success resets the circuit and returns the text.
The result triple is (returned value, new circuit, new enabled flag). -/
def try_provider (b : BodyOutcome) (c : CircuitE) (enabled : Bool) (now : ℚ) :
    Option PyStr × CircuitE × Bool :=
  match try_provider_body b with
  | .ok s => (some s, circuitSuccess, enabled)
  | .error .langNotSupported => (none, c, enabled)
  | .error .lengthNotSupported => (none, c, enabled)
  | .error .generic =>
      (none, circuitFailure c now,
        if circuitAllow (circuitFailure c now) now then enabled else false)

/-- Cache key `(text.strip(), source, target)`. -/
abbrev TransKey := PyStr × PyStr × PyStr

/-- `_cache_get`: look the key up and move a hit to the most-recent end. -/
def cache_get (cache : List (TransKey × PyStr)) (k : TransKey) :
    Option PyStr × List (TransKey × PyStr) :=
  match cache.find? (fun kv => kv.1 = k) with
  | none => (none, cache)
  | some kv => (some kv.2, cache.filter (fun kv' => ¬ kv'.1 = k) ++ [kv])

/-- `_cache_put`: write the key (moving it to the most-recent end) and evict
the least recently used entry past the capacity. -/
def cache_put (cache : List (TransKey × PyStr)) (k : TransKey) (v : PyStr) :
    List (TransKey × PyStr) :=
  let c1 := cache.filter (fun kv => ¬ kv.1 = k) ++ [(k, v)]
  if c1.length > CACHE_SIZE then c1.tail else c1

/-- Mutable singleton state of `TranslationManager` used by `translate`. -/
structure TransState where
  cache : List (TransKey × PyStr)
  providers_enabled : ProvidersE → Bool
  circuits : ProvidersE → CircuitE

/-- `_provider_order` before `random.shuffle`: the enabled providers in the
build order google, freeapi, mymemory.  The shuffle is modelled by
quantifying over permutations of this list. -/
def provider_order_base (enabled : ProvidersE → Bool) : List ProvidersE :=
  (if enabled .google then [ProvidersE.google] else []) ++
  (if enabled .freeapi then [ProvidersE.freeapi] else []) ++
  (if enabled .mymemory then [ProvidersE.mymemory] else [])

/-- Provider loop of `translate`: skip disabled providers and open circuits,
try the rest in order, cache and return the first truthy result, fall
through to `None`. -/
def translate_loop (key : TransKey) (behave : ProvidersE → BodyOutcome) (now : ℚ) :
    List ProvidersE → TransState → Option PyStr × TransState
  | [], st => (none, st)
  | prov :: rest, st =>
      if ¬ st.providers_enabled prov then translate_loop key behave now rest st
      else if ¬ circuitAllow (st.circuits prov) now then
        translate_loop key behave now rest st
      else
        let r := try_provider (behave prov) (st.circuits prov)
          (st.providers_enabled prov) now
        let st' : TransState :=
          { st with
            circuits := fun q => if q = prov then r.2.1 else st.circuits q,
            providers_enabled := fun q =>
              if q = prov then r.2.2 else st.providers_enabled q }
        match r.1 with
        | some s =>
            if s = [] then translate_loop key behave now rest st'
            else (some s, { st' with cache := cache_put st'.cache key s })
        | none => translate_loop key behave now rest st'

/-- `TranslationManager.translate` (translation_manager.py lines 115-150):
default the target, build the cache key from the stripped text, short
circuit on a cache hit (updating the LRU order), otherwise run the provider
cascade and return `None` when it is exhausted. -/
def tm_translate (st : TransState) (now : ℚ) (order : List ProvidersE)
    (behave : ProvidersE → BodyOutcome) (text source target0 : PyStr)
    (_proxies : List PyStr) : Option PyStr × TransState :=
  let target := if target0 = [] then py "en" else target0
  let key : TransKey := (pyStrip text, source, target)
  match cache_get st.cache key with
  | (some cached, cache') => (some cached, { st with cache := cache' })
  | (none, cache') => translate_loop key behave now order { st with cache := cache' }

/-- Whether one loop attempt for a provider succeeds from a given state:
enabled, circuit closed, and a body returning a non-empty string. -/
def provider_succeeds (st : TransState) (now : ℚ)
    (behave : ProvidersE → BodyOutcome) (p : ProvidersE) : Bool :=
  st.providers_enabled p && circuitAllow (st.circuits p) now &&
    (match try_provider_body (behave p) with
     | .ok _ => true
     | .error _ => false)

/-- Value delivered by a succeeding provider. -/
def provider_value (behave : ProvidersE → BodyOutcome) (p : ProvidersE) :
    Option PyStr :=
  match try_provider_body (behave p) with
  | .ok s => some s
  | .error _ => none

/-- A body that returns `ok` carries a non-empty string (the empty string
raises inside the body). -/
theorem try_provider_body_ok_ne_nil (b : BodyOutcome) (s : PyStr)
    (h : try_provider_body b = .ok s) : s ≠ [] := by
  cases b with
  | langNotSupported => exact absurd h (by simp [try_provider_body])
  | lengthNotSupported => exact absurd h (by simp [try_provider_body])
  | raises => exact absurd h (by simp [try_provider_body])
  | result v =>
      cases v with
      | nonString => exact absurd h (by simp [try_provider_body])
      | str t =>
          simp only [try_provider_body] at h
          split_ifs at h with ht
          cases h
          exact ht

/-- Finding with pointwise equal predicates agrees. -/
theorem find?_congr_mem {α : Type} (p q : α → Bool) : ∀ l : List α,
    (∀ a ∈ l, p a = q a) → l.find? p = l.find? q
  | [], _ => rfl
  | a :: rest, h => by
      by_cases hpa : p a = true
      · rw [List.find?_cons_of_pos _ hpa,
          List.find?_cons_of_pos _ (by rw [← h a (List.mem_cons_self a rest)]; exact hpa)]
      · rw [List.find?_cons_of_neg _ hpa,
          List.find?_cons_of_neg _ (by rw [← h a (List.mem_cons_self a rest)]; exact hpa),
          find?_congr_mem p q rest (fun b hb => h b (List.mem_cons_of_mem a hb))]

/-- The provider loop returns exactly the value of the first succeeding
provider of the order, judged against the entry state: a failing attempt
mutates only its own provider's circuit and enabled flag, which later
distinct providers never read. -/
theorem translate_loop_spec (key : TransKey) (behave : ProvidersE → BodyOutcome)
    (now : ℚ) : ∀ (order : List ProvidersE) (st : TransState), order.Nodup →
    (translate_loop key behave now order st).1 =
      (order.find? (fun p => provider_succeeds st now behave p)).bind
        (provider_value behave)
  | [], st, _ => rfl
  | prov :: rest, st, hnd => by
      have hnd' : rest.Nodup := (List.nodup_cons.mp hnd).2
      have hprovmem : prov ∉ rest := (List.nodup_cons.mp hnd).1
      unfold translate_loop
      by_cases hen : st.providers_enabled prov
      · by_cases hal : circuitAllow (st.circuits prov) now
        · rw [if_neg (by simpa using hen), if_neg (by simpa using hal)]
          rcases hbody : try_provider_body (behave prov) with exc | s
          · have hr1 : (try_provider (behave prov) (st.circuits prov)
                (st.providers_enabled prov) now).1 = none := by
              unfold try_provider
              rw [hbody]
              rcases exc <;> rfl
            have hfail : provider_succeeds st now behave prov = false := by
              unfold provider_succeeds
              rw [hbody]
              simp
            rw [List.find?_cons_of_neg _ (by rw [hfail]; exact Bool.false_ne_true)]
            simp only [hr1]
            set st' : TransState :=
              { st with
                circuits := fun q =>
                  if q = prov then (try_provider (behave prov) (st.circuits prov)
                    (st.providers_enabled prov) now).2.1 else st.circuits q,
                providers_enabled := fun q =>
                  if q = prov then (try_provider (behave prov) (st.circuits prov)
                    (st.providers_enabled prov) now).2.2
                  else st.providers_enabled q } with hst'
            have hsame : ∀ q ∈ rest,
                provider_succeeds st' now behave q = provider_succeeds st now behave q := by
              intro q hq
              have hqne : q ≠ prov := fun hc => hprovmem (hc ▸ hq)
              unfold provider_succeeds
              rw [hst']
              simp only [if_neg hqne]
            rw [translate_loop_spec key behave now rest st' hnd',
              find?_congr_mem _ _ rest hsame]
          · have hr1 : (try_provider (behave prov) (st.circuits prov)
                (st.providers_enabled prov) now).1 = some s := by
              unfold try_provider
              rw [hbody]
            have hsne : s ≠ [] := try_provider_body_ok_ne_nil (behave prov) s hbody
            have hsucc : provider_succeeds st now behave prov = true := by
              unfold provider_succeeds
              rw [hbody]
              simp [hen, hal]
            rw [List.find?_cons_of_pos _ hsucc]
            simp only [hr1, if_neg hsne]
            simp only [Option.some_bind, provider_value, hbody]
        · rw [if_neg (by simpa using hen), if_pos (by simpa using hal)]
          have hfail : provider_succeeds st now behave prov = false := by
            unfold provider_succeeds
            simp [hal]
          rw [List.find?_cons_of_neg _ (by rw [hfail]; exact Bool.false_ne_true)]
          exact translate_loop_spec key behave now rest st hnd'
      · rw [if_pos (by simpa using hen)]
        have hfail : provider_succeeds st now behave prov = false := by
          unfold provider_succeeds
          simp [hen]
        rw [List.find?_cons_of_neg _ (by rw [hfail]; exact Bool.false_ne_true)]
        exact translate_loop_spec key behave now rest st hnd'

/-! ## Python exceptions distinguished by the embedding -/

/-- Python exception kinds that the embedded code can raise. -/
inductive PyErr
  | typeError
  | valueError
  | attributeError
  | serviceError
  | scrapingError
deriving DecidableEq

/-! ## Proxy service (`src/services/proxy.py`)

The upstream HTTP service and the per-proxy HTTPS probes are external; one
call is summarised by an `UpstreamResp` and a probe oracle. -/

/-- `ProxyService.validate_proxies` (proxy.py lines 134-147): probe each
proxy with a 5-second timeout and keep those answering 200; a probe
exception just skips the proxy.  Input order is preserved. -/
def validate_proxies (probe : PyStr → Bool) (proxies : List PyStr) : List PyStr :=
  proxies.filter probe

/-- Upstream response of the authenticated GET in `__get_proxies`. -/
inductive UpstreamResp
  | http200 (success : Bool) (data : List PyStr)
  | http401
  | http429
  | httpOther
  | netError
  | timeoutError

/-- Trace of one `__get_proxies` call: outcome, number of upstream fetches
issued, and the seconds slept between fetches. -/
structure FetchTrace where
  result : Except PyErr (List PyStr)
  fetch_count : Nat
  sleep_secs : List Nat

/-- `ProxyService.__get_proxies` (proxy.py lines 262-362): without an API
key it raises before fetching; otherwise it issues exactly one fetch.  A
200 response with `success` false raises `ServiceException`; an empty
`data` list returns the empty list at once, skipping validation; otherwise
the validated sublist is returned (and cached).  Non-200 statuses, network
errors and timeouts raise `ServiceException`.  No path fetches twice or
sleeps. -/
def get_proxies (apiKeyConfigured : Bool) (resp : UpstreamResp)
    (probe : PyStr → Bool) : FetchTrace :=
  if ¬ apiKeyConfigured then
    { result := .error .serviceError, fetch_count := 0, sleep_secs := [] }
  else
    match resp with
    | .http200 success data =>
        if ¬ success then
          { result := .error .serviceError, fetch_count := 1, sleep_secs := [] }
        else if data = [] then
          { result := .ok [], fetch_count := 1, sleep_secs := [] }
        else
          { result := .ok (validate_proxies probe data), fetch_count := 1,
            sleep_secs := [] }
    | _ => { result := .error .serviceError, fetch_count := 1, sleep_secs := [] }

/-! ## Image finder (`src/processing/image_finder.py`) -/

/-- Standardised image record built by `_process_bing_image` and
`_process_duckduckgo_image`; only the fields `_is_high_quality_image`
reads are kept. -/
structure ImageData where
  url : PyStr
  width : Nat
  height : Nat
  file_size : PyStr
  format : PyStr

/-- Quality thresholds of `ImageFinder.__init__` (image_finder.py
lines 39-47). -/
def min_width : Nat := 300

/-- Minimum height threshold (`self.min_height = 200`). -/
def min_height : Nat := 200

/-- Maximum width threshold. -/
def max_width : Nat := 4000

/-- Maximum height threshold. -/
def max_height : Nat := 4000

/-- `self.max_file_size = 5 * 1024 * 1024`. -/
def max_file_size : ℚ := 5 * 1024 * 1024

/-- `self.supported_formats`. -/
def supported_formats : List PyStr :=
  [py ".jpg", py ".jpeg", py ".png", py ".webp", py ".gif"]

/-- Python `str.upper()`. -/
def pyUpper (s : PyStr) : PyStr := s.map pyUpperChar

/-- File-size parsing block of `_is_high_quality_image`: split the size
string, parse the numeric part through the external `float` conversion
(`parseFloat`, `none` on `ValueError`), convert by unit.  `none` means the
block falls through without a verdict. -/
def sizeToBytes (parseFloat : PyStr → Option ℚ) (file_size : PyStr) : Option ℚ :=
  let size_parts := pySplit file_size
  if 2 ≤ size_parts.length then
    match parseFloat (size_parts.getD 0 []) with
    | none => none
    | some size_value =>
        let size_unit := pyUpper (size_parts.getD 1 [])
        some (if size_unit = py "KB" then size_value * 1024
          else if size_unit = py "MB" then size_value * 1024 * 1024
          else if size_unit = py "GB" then size_value * 1024 * 1024 * 1024
          else size_value)
  else none

/-- Python substring test `sub in s` on code-point lists. -/
def pyIn (sub s : PyStr) : Bool :=
  (List.range (s.length + 1)).any (fun i => sub.isPrefixOf (s.drop i))

/-- Aspect ratio computed by `_is_high_quality_image`: float division
modelled exactly by `ℚ` for the integer ranges involved. -/
def aspect_ratio_of (img : ImageData) : ℚ :=
  if 0 < img.height then (img.width : ℚ) / (img.height : ℚ) else 0

/-- File-size verdict of `_is_high_quality_image`: present-and-parsed size
above the cap. -/
def size_verdict_of (parseFloat : PyStr → Option ℚ) (img : ImageData) : Bool :=
  if img.file_size = [] then false
  else
    match sizeToBytes parseFloat img.file_size with
    | some b => decide (max_file_size < b)
    | none => false

/-- Format verdict of `_is_high_quality_image`: a non-empty lowercased
format containing none of the supported extensions as a substring. -/
def format_verdict_of (img : ImageData) : Bool :=
  decide (pyLower img.format ≠ []) &&
    ! (supported_formats.any (fun fmt => pyIn fmt (pyLower img.format)))

/-- `ImageFinder._is_high_quality_image` (image_finder.py lines 232-289):
reject on dimension bounds, aspect ratio outside `[0.5, 3.0]`, parsed file
size above the cap, unsupported format substring, and URLs lacking an
`http(s)://` prefix. -/
def is_high_quality_image (parseFloat : PyStr → Option ℚ) (img : ImageData) : Bool :=
  if img.width < min_width ∨ img.height < min_height then false
  else if max_width < img.width ∨ max_height < img.height then false
  else if aspect_ratio_of img < 1/2 ∨ 3 < aspect_ratio_of img then false
  else if size_verdict_of parseFloat img then false
  else if format_verdict_of img then false
  else if img.url = [] ∨
      ¬ (pyStartswith img.url (py "http://") ∨ pyStartswith img.url (py "https://")) then
    false
  else true

/-- Bounds guaranteed for every accepted image (with the thresholds the
source actually sets: 300 and 200, not 500). -/
theorem is_high_quality_image_bounds (parseFloat : PyStr → Option ℚ)
    (img : ImageData) (h : is_high_quality_image parseFloat img = true) :
    min_width ≤ img.width ∧ min_height ≤ img.height ∧
    img.width ≤ max_width ∧ img.height ≤ max_height ∧
    (0 < img.height ∧
      (1/2 : ℚ) ≤ (img.width : ℚ) / (img.height : ℚ) ∧
      ((img.width : ℚ) / (img.height : ℚ) : ℚ) ≤ 3) ∧
    (pyStartswith img.url (py "http://") ∨ pyStartswith img.url (py "https://")) := by
  unfold is_high_quality_image at h
  split_ifs at h with h1 h2 h3 h4 h5 h6
  push_neg at h1 h2 h3 h6
  have hh : 0 < img.height := by
    have h1' := h1.2
    simp only [min_height] at h1'
    omega
  refine ⟨h1.1, h1.2, h2.1, h2.2, ⟨hh, ?_, ?_⟩, h6.2⟩
  · have h3' := h3.1
    unfold aspect_ratio_of at h3'
    rw [if_pos hh] at h3'
    exact h3'
  · have h3' := h3.2
    unfold aspect_ratio_of at h3'
    rw [if_pos hh] at h3'
    exact h3'

/-! ## Data model (`src/models`) -/

/-- `GeoEntity` (src/models/geo_entity.py). -/
structure GeoEntityE where
  name : PyStr
  alpha2 : PyStr
  alpha3 : PyStr
  count : Nat
  avg_score : ℚ

/-- `ExtractResult` (src/models/extract_result.py): a pydantic model whose
fields all default; a constructor call fills only the keywords it passes
and every other field keeps its default. -/
structure ExtractResultE where
  id : PyStr := []
  parent_id : PyStr := []
  url : PyStr := []
  title : PyStr := []
  title_en : PyStr := []
  language : PyStr := []
  author : PyStr := []
  published_date : PyStr := []
  content : PyStr := []
  images : List PyStr := []
  article_source_country : PyStr := []
  hostname : PyStr := []
  entities : Option EntityModelE := none
  geo_entities : List GeoEntityE := []
  scraped_at : PyStr := []
  word_count : Nat := 0

/-- `FeedModel` (src/models/feed_models.py), restricted to the fields the
pipeline reads. -/
structure FeedModelE where
  id : PyStr
  url : PyStr
  title : PyStr
  flashpoint_id : PyStr
  source_country : PyStr

/-! ## Content extractor (`src/scraping`, `src/processing/news_content_extractor.py`) -/

/-- Fields the external trafilatura library extracts from a page. -/
structure TrafData where
  text : PyStr
  title : PyStr
  author : PyStr
  date : PyStr
  image : PyStr
  hostname : PyStr

/-- `ExtractResult` construction in `TrafilaturaExtractor` (trafilatura
extraction, trafilatura_extractor.py lines 179-214): strip the library
fields, substitute the `error_pattern_found` sentinel when the error-pattern
regex fires (`errorPattern`, an oracle for `WebScraperUtils
.find_error_pattern`), and count words with `len(content.split())`.  The
constructor passes url, title, author, published_date, content, images,
hostname, scraped_at and word_count only — `id` and `parent_id` keep their
pydantic defaults, the empty string. -/
def trafilatura_build (url : PyStr) (d : TrafData) (scraped_at : PyStr)
    (errorPattern : Bool) : ExtractResultE :=
  let content := if errorPattern then py "error_pattern_found" else pyStrip d.text
  { url := url, title := pyStrip d.title, author := pyStrip d.author,
    published_date := pyStrip d.date, content := content,
    images := [pyStrip d.image], hostname := pyStrip d.hostname,
    scraped_at := scraped_at, word_count := (pySplit content).length }

/-- External inputs of one `extract_feed` run: the forced proxy-cache
refresh and the trafilatura stage (`none` when `scrape_article` raised or
returned `None`). -/
structure ScrapeOracle where
  proxy_cache : Except PyErr (List PyStr)
  traf : Option (TrafData × PyStr × Bool)

/-- Result of the trafilatura stage as an `ExtractResultE`. -/
def traf_result (url : PyStr) : Option (TrafData × PyStr × Bool) → Option ExtractResultE
  | none => none
  | some (d, scraped_at, errorPattern) => some (trafilatura_build url d scraped_at errorPattern)

/-- `NewsContentExtractor._scrape_multilang_feeds` (news_content_extractor.py
lines 84-172): return the trafilatura result when its word count exceeds
1000; otherwise fall back to Crawl4AI.  In this source the quick Crawl4AI
result is discarded (`crawl_result = None` on line 131) and the retry path
calls `crawl4ai_scrape_with_retry_and_proxy`, a method `Crawl4AIExtractor`
does not define, so the fallback raises `AttributeError`; the handlers
re-raise it as a generic scraping exception, as they do the `ValueError`
of the empty-proxies sanity check. -/
def scrape_multilang_feeds (url : PyStr) (o : ScrapeOracle) :
    Except PyErr ExtractResultE :=
  match traf_result url o.traf with
  | some r => if 1000 < r.word_count then .ok r else .error .scrapingError
  | none => .error .scrapingError

/-- `NewsContentExtractor.extract_feed` (news_content_extractor.py lines
50-82): force-refresh the proxy cache, raise when it is empty or the fetch
failed, then scrape; every exception is re-raised as a generic one. -/
def extract_feed (url : PyStr) (o : ScrapeOracle) : Except PyErr ExtractResultE :=
  match o.proxy_cache with
  | .error _ => .error .scrapingError
  | .ok proxies =>
      if proxies = [] then .error .scrapingError
      else scrape_multilang_feeds url o

/-- A successful `extract_feed` yields the trafilatura-built record, whose
identifiers are the pydantic defaults. -/
theorem extract_feed_ok_id (url : PyStr) (o : ScrapeOracle) (r : ExtractResultE)
    (h : extract_feed url o = .ok r) : r.id = [] ∧ r.parent_id = [] := by
  unfold extract_feed at h
  split at h
  · exact absurd h (by simp)
  · split_ifs at h
    unfold scrape_multilang_feeds at h
    rcases ho : o.traf with _ | ⟨d, sa, ep⟩
    · rw [ho] at h
      simp [traf_result] at h
    · rw [ho] at h
      simp only [traf_result] at h
      split_ifs at h
      cases h
      exact ⟨rfl, rfl⟩

/-! ## Per-article pipeline (`src/pipeline/pipeline_manager.py`) -/

/-- Positional-call compatibility in Python: a call with `passed` positional
arguments binds a signature with `required` mandatory and `optional`
defaulted parameters exactly when `required ≤ passed ≤ required + optional`;
otherwise the call site raises `TypeError` before the body runs. -/
def acceptsPositional (required optional passed : Nat) : Prop :=
  required ≤ passed ∧ passed ≤ required + optional

instance (r o p : Nat) : Decidable (acceptsPositional r o p) := by
  unfold acceptsPositional; infer_instance

/-- `Geotagger.extract_geographic_entities(self, text, language="en")`
(geotagger.py line 258): one required and one optional parameter after
`self`. -/
def geotag_required_args : Nat := 1

/-- Optional parameters of `extract_geographic_entities` after `self`. -/
def geotag_optional_args : Nat := 1

/-- `_geotag_article` passes `(title, content, locations)` — three
positional arguments (pipeline_manager.py line 548). -/
def geotag_passed_args : Nat := 3

/-- `PipelineManager._geotag_article` (pipeline_manager.py lines 538-553):
read title, content and `entities.LOC`, call the geotagger, store the
result.  The method has no exception handler.  `geoResult` stands for what
the call would deliver if it bound the signature; with the actual arity it
raises `TypeError` first. -/
def geotag_article (geoResult : Except PyErr (List GeoEntityE))
    (e : ExtractResultE) : Except PyErr ExtractResultE :=
  if acceptsPositional geotag_required_args geotag_optional_args geotag_passed_args then
    match geoResult with
    | .ok gs => .ok { e with geo_entities := gs }
    | .error err => .error err
  else .error .typeError

/-- The geotagging step always raises `TypeError`: three positional
arguments can never bind a one-plus-one-parameter signature. -/
theorem geotag_article_raises (geoResult : Except PyErr (List GeoEntityE))
    (e : ExtractResultE) : geotag_article geoResult e = .error .typeError := by
  unfold geotag_article
  rw [if_neg]
  intro hc
  rcases hc with ⟨_, h2⟩
  simp [geotag_required_args, geotag_optional_args, geotag_passed_args] at h2

/-- Occurrence count in `Counter`. -/
def countOcc (l : List PyStr) (x : PyStr) : Nat :=
  (l.filter (fun y => y = x)).length

/-- `Counter(languages).most_common(1)[0][0]`: among first occurrences in
order, the earliest element of maximal count (`most_common` sorts by count
descending, stably); `none` models the `IndexError` on an empty list. -/
def most_common1 (l : List PyStr) : Option PyStr :=
  (l.foldl (fun acc x => if x ∈ acc then acc else acc ++ [x]) []).foldl
    (fun best x =>
      match best with
      | none => some x
      | some b => if countOcc l b < countOcc l x then some x else best) none

/-- `_set_extracted_language` (pipeline_manager.py lines 460-493): detect
the language of sampled sentences plus the title (the sampling and the
detector are absorbed into the `detected` oracle; falsy detections are
dropped), set the modal result; every exception — including the
`IndexError` of `most_common(1)[0]` when no detection survived — is caught
and leaves the language empty. -/
def set_extracted_language (detected : List PyStr) (e : ExtractResultE) :
    ExtractResultE :=
  match most_common1 (detected.filter (fun l => l ≠ [])) with
  | some lang => { e with language := lang }
  | none => { e with language := [] }

/-- External inputs of one `process_article` run. -/
structure PipelineOracle where
  scrape : ScrapeOracle
  detected_langs : List PyStr
  step3_proxies : Except PyErr (List PyStr)
  translation : Option PyStr
  ner : NerModel
  rx : RegexLib
  entity_enabled : Bool
  ner_loaded : Bool
  geo : Except PyErr (List GeoEntityE)
  images_found : List PyStr
  downloaded : Except PyErr (List PyStr)

/-- `_translate_title` (pipeline_manager.py lines 514-529): English titles
are copied verbatim; otherwise the proxy cache is fetched — the method has
no handler, so a fetch failure propagates — and the translation result (or
the empty string for a falsy result) becomes `title_en`. -/
def translate_title (o : PipelineOracle) (e : ExtractResultE) :
    Except PyErr ExtractResultE :=
  if e.language = py "en" then .ok { e with title_en := e.title }
  else
    match o.step3_proxies with
    | .error err => .error err
    | .ok _ =>
        .ok { e with title_en :=
          match o.translation with
          | some t => if t = [] then [] else t
          | none => [] }

/-- `_extract_entities` (pipeline_manager.py lines 531-536): run the entity
tagger on the content; the tagger itself never raises. -/
def extract_entities_step (o : PipelineOracle) (e : ExtractResultE) :
    ExtractResultE :=
  { e with entities := some (extract_entities o.ner o.rx o.entity_enabled
      o.ner_loaded chunk_chars_default e.content) }

/-- `_find_images` (pipeline_manager.py lines 555-642): best-effort image
search whose whole body is wrapped in a handler, so the step is total; the
search-loop collection is summarised by the `found` oracle, and collected
images extend the record's list with empty entries dropped. -/
def find_images_step (found : List PyStr) (e : ExtractResultE) : ExtractResultE :=
  if found ≠ [] then
    { e with images := (e.images ++ found).filter (fun i => i ≠ []) }
  else e

/-- `_download_images` (pipeline_manager.py lines 644-656): the downloader
outcome is summarised by the oracle; a failure is caught and clears the
image list, so the step is total. -/
def download_images_step (downloaded : Except PyErr (List PyStr))
    (e : ExtractResultE) : ExtractResultE :=
  match downloaded with
  | .ok urls => { e with images := urls }
  | .error _ => { e with images := [] }

/-- Per-article processing record (`process_article` result dict). -/
structure ProcessingResultE where
  article_id : PyStr
  status : PyStr
  processing_steps : List PyStr
  enriched_data : Option ExtractResultE
  errors : List PyStr

/-- Message text of the catch-all error record (the embedding does not
model the Python message formatting; only presence matters). -/
def err_message : PyErr → PyStr
  | .typeError => py "TypeError"
  | .valueError => py "ValueError"
  | .attributeError => py "AttributeError"
  | .serviceError => py "ServiceException"
  | .scrapingError => py "Exception"

/-- Failure record returned by the catch-all of `process_article`. -/
def failed_result (article : FeedModelE) (steps : List PyStr) (err : PyErr) :
    ProcessingResultE :=
  { article_id := article.id, status := py "failed", processing_steps := steps,
    enriched_data := none, errors := [err_message err] }

/-- `PipelineManager.process_article` (pipeline_manager.py lines 82-208):
seed a fresh `ExtractResult` with the identifiers, run steps 1-7 — the
scraping, translation and geotagging steps can raise, the others are
total — and report `completed` with the enriched data or `failed` when an
exception reaches the catch-all. -/
def process_article (o : PipelineOracle) (article : FeedModelE) :
    ProcessingResultE :=
  let seeded : ExtractResultE :=
    { id := article.id, parent_id := article.flashpoint_id, url := article.url,
      title := article.title, images := [],
      article_source_country := article.source_country }
  match extract_feed seeded.url o.scrape with
  | .error err => failed_result article [] err
  | .ok d1 =>
    let d2 := set_extracted_language o.detected_langs d1
    match translate_title o d2 with
    | .error err =>
        failed_result article [py "scraping", py "language_setting"] err
    | .ok d3 =>
      let d4 := extract_entities_step o d3
      match geotag_article o.geo d4 with
      | .error err =>
          failed_result article
            [py "scraping", py "language_setting", py "translation",
             py "entity_extraction"] err
      | .ok d5 =>
        let d6 := find_images_step o.images_found d5
        let d7 := if 0 < d6.images.length then download_images_step o.downloaded d6
          else d6
        { article_id := article.id, status := py "completed",
          processing_steps :=
            [py "scraping", py "language_setting", py "translation",
             py "entity_extraction", py "geotagging", py "image_search"] ++
            (if 0 < d6.images.length then [py "image_download"] else []),
          enriched_data := some d7, errors := [] }

/-! ## Batch executor (`src/pipeline/pipeline_manager.py`) -/

/-- `_calculate_optimal_batch_size` (pipeline_manager.py lines 308-343):
the first statement of the body is `return self.max_workers`; the sizing
heuristic below it is unreachable. -/
def calculate_optimal_batch_size (max_workers : Nat) (_total_articles : Nat) : Nat :=
  max_workers

/-- Slicing loop of `_create_sub_batches`: `article_data_list[i : i + bs]`
for `i in range(0, n, bs)`, which requires a positive step. -/
def chunk_slices {α : Type} (bs : Nat) (hbs : 0 < bs) : List α → List (List α)
  | [] => []
  | a :: l => (a :: l).take bs :: chunk_slices bs hbs ((a :: l).drop bs)
termination_by l => l.length
decreasing_by
  simp only [List.length_drop, List.length_cons]
  omega

/-- `_create_sub_batches` (pipeline_manager.py lines 346-363): contiguous
slices of the requested size; `range(0, n, 0)` raises `ValueError`. -/
def create_sub_batches {α : Type} (l : List α) (batch_size : Nat) :
    Except PyErr (List (List α)) :=
  if h : batch_size = 0 then .error .valueError
  else .ok (chunk_slices batch_size (Nat.pos_of_ne_zero h) l)

/-- Slices concatenate back to the list. -/
theorem chunk_slices_flatten {α : Type} (bs : Nat) (hbs : 0 < bs) :
    ∀ l : List α, (chunk_slices bs hbs l).flatten = l
  | [] => by rw [chunk_slices]; rfl
  | a :: l => by
      rw [chunk_slices]
      simp only [List.flatten_cons,
        chunk_slices_flatten bs hbs ((a :: l).drop bs), List.take_append_drop]
termination_by l => l.length
decreasing_by
  simp only [List.length_drop, List.length_cons]
  omega

/-- Every slice is non-empty and no longer than the batch size. -/
theorem chunk_slices_sizes {α : Type} (bs : Nat) (hbs : 0 < bs) :
    ∀ l : List α, ∀ b ∈ chunk_slices bs hbs l, b ≠ [] ∧ b.length ≤ bs
  | [], b, hb => absurd hb (by simp [chunk_slices])
  | a :: l, b, hb => by
      rw [chunk_slices] at hb
      rcases List.mem_cons.mp hb with h1 | h1
      · subst h1
        constructor
        · intro hc
          have hlen := congrArg List.length hc
          simp only [List.length_take, List.length_nil, List.length_cons] at hlen
          omega
        · simp only [List.length_take]
          omega
      · exact chunk_slices_sizes bs hbs ((a :: l).drop bs) b h1
termination_by l => l.length
decreasing_by
  simp only [List.length_drop, List.length_cons]
  omega

/-- Every slice except possibly the last has length exactly the batch
size. -/
theorem chunk_slices_full {α : Type} (bs : Nat) (hbs : 0 < bs) :
    ∀ l : List α, ∀ b ∈ (chunk_slices bs hbs l).dropLast, b.length = bs
  | [], b, hb => absurd hb (by simp [chunk_slices])
  | a :: l, b, hb => by
      rw [chunk_slices] at hb
      rcases hrest : chunk_slices bs hbs ((a :: l).drop bs) with _ | ⟨c, cs⟩
      · rw [hrest] at hb
        exact absurd hb (by simp)
      · rw [hrest] at hb
        rw [List.dropLast_cons_of_ne_nil (by simp)] at hb
        rcases List.mem_cons.mp hb with h1 | h1
        · subst h1
          have hlen : bs < (a :: l).length := by
            by_contra hc
            push_neg at hc
            have : (a :: l).drop bs = [] := List.drop_eq_nil_of_le hc
            rw [this] at hrest
            simp [chunk_slices] at hrest
          simp only [List.length_take]
          omega
        · have := chunk_slices_full bs hbs ((a :: l).drop bs) b
          rw [hrest] at this
          exact this h1
termination_by l => l.length
decreasing_by
  simp only [List.length_drop, List.length_cons]
  omega

/-- Gathered result of one task in `_process_sub_batch`: a task that raised
(`return_exceptions=True`) is converted to a failed record, any other
result is reported as-is. -/
def task_result (outcome : FeedModelE → Except PyErr ProcessingResultE)
    (a : FeedModelE) : ProcessingResultE :=
  match outcome a with
  | .ok r => r
  | .error err =>
      { article_id := a.id, status := py "failed", processing_steps := [],
        enriched_data := none, errors := [err_message err] }

/-- Aggregate of one sub-batch. -/
structure SubBatchResultE where
  successful : Nat
  failed : Nat
  results : List ProcessingResultE

/-- `_process_sub_batch` (pipeline_manager.py lines 365-444): one task per
article, gathered in task-creation order (`asyncio.gather` preserves
argument order), counting completed and failed statuses. -/
def process_sub_batch (outcome : FeedModelE → Except PyErr ProcessingResultE)
    (sub_batch : List FeedModelE) : SubBatchResultE :=
  let results := sub_batch.map (task_result outcome)
  { successful := (results.filter (fun r => r.status = py "completed")).length,
    failed := (results.filter (fun r => ¬ r.status = py "completed")).length,
    results := results }

/-- Batch summary dict returned by `process_batch`. -/
structure BatchResultE where
  status : PyStr
  total_articles : Nat
  processed : Nat
  successful : Nat
  failed : Nat
  results : List ProcessingResultE

/-- `PipelineManager.process_batch` (pipeline_manager.py lines 210-306):
size the sub-batches with `_calculate_optimal_batch_size`, slice, process
each sub-batch in order extending the aggregate lists, and report; any
exception — such as the `ValueError` of a zero batch size — is caught and
reported as a failed batch with the results accumulated so far. -/
def process_batch (outcome : FeedModelE → Except PyErr ProcessingResultE)
    (max_workers : Nat) (articles : List FeedModelE) : BatchResultE :=
  match create_sub_batches articles (calculate_optimal_batch_size max_workers articles.length) with
  | .error _ =>
      { status := py "failed", total_articles := articles.length, processed := 0,
        successful := 0, failed := 0, results := [] }
  | .ok subs =>
      let subResults := subs.map (process_sub_batch outcome)
      { status := py "completed", total_articles := articles.length,
        processed := ((subResults.map (fun s => s.results.length)).sum),
        successful := ((subResults.map (fun s => s.successful)).sum),
        failed := ((subResults.map (fun s => s.failed)).sum),
        results := (subResults.map (fun s => s.results)).flatten }

/-! ## Concrete inputs used by witnesses and counterexamples -/

/-- Text of `n` single-letter words separated by single spaces. -/
def wordsN : Nat → PyStr
  | 0 => []
  | 1 => [97]
  | n + 2 => 97 :: 32 :: wordsN (n + 1)

/-- Splitting the `n`-word text yields `n` words. -/
theorem pySplitAux_wordsN : ∀ n, 1 ≤ n →
    pySplitAux (wordsN n) [] = List.replicate n [97]
  | 0, h => absurd h (by omega)
  | 1, _ => rfl
  | n + 2, _ => by
      have ih := pySplitAux_wordsN (n + 1) (by omega)
      show pySplitAux (97 :: 32 :: wordsN (n + 1)) [] = _
      rw [show pySplitAux (97 :: 32 :: wordsN (n + 1)) [] =
        pySplitAux (32 :: wordsN (n + 1)) [97] from rfl]
      rw [show pySplitAux (32 :: wordsN (n + 1)) [97] =
        [97].reverse :: pySplitAux (wordsN (n + 1)) [] from rfl]
      rw [ih]
      rfl

/-- The `n`-word text starts with a letter. -/
theorem wordsN_head : ∀ n, 1 ≤ n → ∃ t, wordsN n = 97 :: t
  | 0, h => absurd h (by omega)
  | 1, _ => ⟨[], rfl⟩
  | n + 2, _ => ⟨32 :: wordsN (n + 1), rfl⟩

/-- The `n`-word text ends with a letter. -/
theorem wordsN_reverse_head : ∀ n, 1 ≤ n → ∃ t, (wordsN n).reverse = 97 :: t
  | 0, h => absurd h (by omega)
  | 1, _ => ⟨[], rfl⟩
  | n + 2, _ => by
      obtain ⟨t, ht⟩ := wordsN_reverse_head (n + 1) (by omega)
      refine ⟨t ++ [32, 97], ?_⟩
      show (97 :: 32 :: wordsN (n + 1)).reverse = _
      rw [List.reverse_cons, List.reverse_cons, ht]
      simp

/-- Stripping the `n`-word text changes nothing. -/
theorem pyStrip_wordsN (n : Nat) (h : 1 ≤ n) : pyStrip (wordsN n) = wordsN n := by
  obtain ⟨t1, ht1⟩ := wordsN_head n h
  obtain ⟨t2, ht2⟩ := wordsN_reverse_head n h
  unfold pyStrip
  rw [ht1, List.dropWhile_cons_of_neg (by norm_num [pyIsSpace]), ← ht1, ht2,
    List.dropWhile_cons_of_neg (by norm_num [pyIsSpace]), ← ht2,
    List.reverse_reverse]

/-- Word count of the `n`-word text. -/
theorem pySplit_wordsN_length (n : Nat) (h : 1 ≤ n) :
    (pySplit (wordsN n)).length = n := by
  unfold pySplit
  rw [pySplitAux_wordsN n h, List.length_replicate]

/-- Trafilatura page data whose text has exactly `n` words. -/
def trafDataN (n : Nat) : TrafData :=
  { text := wordsN n, title := py "T", author := [], date := [], image := [],
    hostname := py "h" }

/-- Word count of the record built from the `n`-word page. -/
theorem trafilatura_build_word_count (url sa : PyStr) (n : Nat) (h : 1 ≤ n) :
    (trafilatura_build url (trafDataN n) sa false).word_count = n := by
  show (pySplit (pyStrip (wordsN n))).length = n
  rw [pyStrip_wordsN n h, pySplit_wordsN_length n h]

/-! ## Claim theorems -/

/-- C10: for every string and every chunk size, concatenating in order all
chunks yielded by `EntityTagger._iter_chunks` yields exactly the original
text — chunking loses and duplicates nothing. -/
theorem C10_iter_chunks_concat (chunkChars : Nat) (text : PyStr) :
    (iter_chunks chunkChars text).flatten = text :=
  iter_chunks_flatten chunkChars text

/-- C9 counterexample: with the default chunk size 20000, a single
20001-character line is yielded as one chunk of length 20001 — the claim
that every chunk has length at most `chunk_chars` is false. -/
theorem C9_counterexample :
    ¬ ∀ chunk ∈ iter_chunks chunk_chars_default (List.replicate 20001 97),
        chunk.length ≤ chunk_chars_default := by
  intro hall
  have hcc : chunk_chars_default = 20000 := by decide
  have h1 : iter_chunks chunk_chars_default (List.replicate 20001 97) =
      [List.replicate 20001 97] := by
    apply iter_chunks_single_line
    · intro hnil
      have hl := congrArg List.length hnil
      rw [List.length_replicate, List.length_nil] at hl
      omega
    · rw [hcc, List.length_replicate]
      omega
    · intro x hx
      rw [List.eq_of_mem_replicate hx]
      decide
  have h2 := hall (List.replicate 20001 97)
    (by rw [h1]; exact List.mem_singleton.mpr rfl)
  rw [List.length_replicate, hcc] at h2
  omega

/-- C9 (amended): chunk boundaries fall only between lines — the chunk list
is the grouping of `splitlines text` into consecutive runs — and every chunk
has length at most `chunk_chars` unless it consists of one single line
longer than `chunk_chars`. -/
theorem C9_iter_chunks_grouping (chunkChars : Nat) (text : PyStr) :
    ∃ groups : List (List PyStr),
      groups.flatten = splitlines text ∧
      iter_chunks chunkChars text = groups.map List.flatten ∧
      ∀ g ∈ groups, g.flatten.length ≤ chunkChars ∨ ∃ l, g = [l] :=
  iter_chunks_line_groups chunkChars text

/-- C8: for every input text, every label bucket of the `EntityModel`
returned by `extract_entities` is sorted by descending score with ties
broken by ascending lowercased text, contains no two entries whose texts
are equal case-insensitively, and every score lies in `[0, 1]` and equals
the rounded maximum over all merged occurrences of the entry's lowercased
text in the bucket's source pairs, provided the black-box NER model
delivers probability scores. -/
theorem C8_extract_entities_buckets (ner : NerModel) (rx : RegexLib)
    (enabled nerLoaded : Bool) (chunkChars : Nat) (text : PyStr)
    (hb : NerScoresBounded ner) (label : TagLabel) :
    List.Pairwise entKeyLe
      (bucketOf (extract_entities ner rx enabled nerLoaded chunkChars text) label) ∧
    List.Pairwise (fun a b : EntityAttributesE => pyLower a.text ≠ pyLower b.text)
      (bucketOf (extract_entities ner rx enabled nerLoaded chunkChars text) label) ∧
    (∀ a ∈ bucketOf (extract_entities ner rx enabled nerLoaded chunkChars text) label,
      0 ≤ a.score ∧ a.score ≤ 1 ∧
      a.score = pyRound4 (accMaxScore (pyLower a.text)
        (bucket_source_pairs ner rx chunkChars text label))) := by
  rcases extract_entities_bucket_cases ner rx enabled nerLoaded chunkChars text label with h | h
  · rw [h]
    exact ⟨List.Pairwise.nil, List.Pairwise.nil, by simp⟩
  · rw [h]
    obtain ⟨h1, h2, h3, h4⟩ := listify_bucketDict_props _
      (bucket_source_pairs_bound ner rx chunkChars text label hb)
    exact ⟨h1, h2, fun a ha => ⟨(h3 a ha).1, (h3 a ha).2, h4 a ha⟩⟩

/-- Trivial NER oracle: an empty entity list for every chunk. -/
def nerTrivial : NerModel := { run := fun _ => some [] }

/-- Trivial regex oracle: no matches. -/
def rxTrivial : RegexLib :=
  { re_event := fun _ => [], re_law := fun _ => [], re_year := fun _ => [],
    re_date_num := fun _ => [], re_money := fun _ => [],
    re_quantity := fun _ => [], re_norp := fun _ => [] }

/-- C8 witness: the score contract holds for the trivial model, and the
claim theorem applies at a concrete text and label. -/
theorem C8_witness :
    NerScoresBounded nerTrivial ∧
    List.Pairwise entKeyLe
      (bucketOf (extract_entities nerTrivial rxTrivial true true 20000 (py "x"))
        TagLabel.PERSON) := by
  have hb : NerScoresBounded nerTrivial := by
    intro chunk ents h e he
    cases h
    exact absurd he (List.not_mem_nil e)
  exact ⟨hb, (C8_extract_entities_buckets nerTrivial rxTrivial true true 20000
    (py "x") hb TagLabel.PERSON).1⟩

/-- Concrete 300x200 image search result with a valid URL, an empty size
string and an empty format string. -/
def c7_image : ImageData :=
  { url := py "https://example.com/a.jpg", width := 300, height := 200,
    file_size := [], format := [] }

/-- External float parser for the file-size block; never consulted on
`c7_image`, whose size string is empty. -/
def parseFloatNone : PyStr → Option ℚ := fun _ => none

/-- `c7_image` passes the quality filter. -/
theorem c7_image_accepted :
    is_high_quality_image parseFloatNone c7_image = true := by
  have hr : aspect_ratio_of c7_image = 3/2 := by
    unfold aspect_ratio_of
    rw [if_pos (by decide)]
    show ((300 : Nat) : ℚ) / ((200 : Nat) : ℚ) = 3/2
    norm_num
  unfold is_high_quality_image
  rw [if_neg (by decide), if_neg (by decide),
    if_neg (by rw [hr]; norm_num), if_neg (by decide), if_neg (by decide),
    if_neg (by decide)]

/-- C7 counterexample: a 300x200 result is accepted by the quality filter,
although the claim requires every accepted image to be at least 500 pixels
in both dimensions (the source thresholds are 300 and 200). -/
theorem C7_counterexample :
    is_high_quality_image parseFloatNone c7_image = true ∧
    c7_image.width < 500 ∧ c7_image.height < 500 :=
  ⟨c7_image_accepted, by decide, by decide⟩

/-- C7 (amended): every image accepted by the quality filter has width at
least 300, height at least 200, both dimensions at most 4000, aspect ratio
within `[0.5, 3.0]`, and a URL starting with `http://` or `https://`; any
result violating one of these bounds is filtered out. -/
theorem C7_quality_filter_bounds (parseFloat : PyStr → Option ℚ)
    (img : ImageData) (h : is_high_quality_image parseFloat img = true) :
    300 ≤ img.width ∧ 200 ≤ img.height ∧
    img.width ≤ 4000 ∧ img.height ≤ 4000 ∧
    0 < img.height ∧
    (1/2 : ℚ) ≤ (img.width : ℚ) / (img.height : ℚ) ∧
    ((img.width : ℚ) / (img.height : ℚ)) ≤ 3 ∧
    (pyStartswith img.url (py "http://") ∨ pyStartswith img.url (py "https://")) := by
  obtain ⟨b1, b2, b3, b4, ⟨b5, b6, b7⟩, b8⟩ :=
    is_high_quality_image_bounds parseFloat img h
  exact ⟨b1, b2, b3, b4, b5, b6, b7, b8⟩

/-- C7 witness: the amended bounds theorem applied at the accepted
`c7_image`. -/
theorem C7_witness :
    is_high_quality_image parseFloatNone c7_image = true ∧
    300 ≤ c7_image.width ∧ 200 ≤ c7_image.height :=
  ⟨c7_image_accepted,
   (C7_quality_filter_bounds parseFloatNone c7_image c7_image_accepted).1,
   (C7_quality_filter_bounds parseFloatNone c7_image c7_image_accepted).2.1⟩

/-- C6 (amended): whenever the trafilatura stage produces a primary result,
it is returned directly exactly when its word count strictly exceeds 1000;
a word count of at most 1000 — including exactly 1000 — falls through to
the Crawl4AI fallback. -/
theorem C6_primary_threshold (url : PyStr) (o : ScrapeOracle) (r : ExtractResultE)
    (h : traf_result url o.traf = some r) :
    (scrape_multilang_feeds url o = .ok r ↔ 1000 < r.word_count) := by
  unfold scrape_multilang_feeds
  simp only [h]
  constructor
  · intro hok
    by_cases hwc : 1000 < r.word_count
    · exact hwc
    · rw [if_neg hwc] at hok
      exact absurd hok (by simp)
  · intro hwc
    rw [if_pos hwc]

/-- Scrape oracle serving one cached proxy and an `n`-word trafilatura
page. -/
def c6_oracle (n : Nat) : ScrapeOracle :=
  { proxy_cache := .ok [py "1.2.3.4:80"],
    traf := some (trafDataN n, py "t", false) }

/-- C6 witness: the threshold theorem applied at a concrete 1001-word
primary result, which is returned directly. -/
theorem C6_witness :
    traf_result (py "u") (c6_oracle 1001).traf =
      some (trafilatura_build (py "u") (trafDataN 1001) (py "t") false) ∧
    (scrape_multilang_feeds (py "u") (c6_oracle 1001) =
        .ok (trafilatura_build (py "u") (trafDataN 1001) (py "t") false) ↔
      1000 < (trafilatura_build (py "u") (trafDataN 1001) (py "t") false).word_count) :=
  ⟨rfl, C6_primary_threshold (py "u") (c6_oracle 1001) _ rfl⟩

/-- C6 counterexample: a primary result of exactly 1000 words — "at least
1000", as the claim puts it — is rejected and falls through to the
fallback instead of being returned directly. -/
theorem C6_counterexample :
    (trafilatura_build (py "u") (trafDataN 1000) (py "t") false).word_count = 1000 ∧
    scrape_multilang_feeds (py "u") (c6_oracle 1000) ≠
      .ok (trafilatura_build (py "u") (trafDataN 1000) (py "t") false) := by
  have hwc := trafilatura_build_word_count (py "u") (py "t") 1000 (by omega)
  refine ⟨hwc, ?_⟩
  intro hok
  unfold scrape_multilang_feeds at hok
  have ht : traf_result (py "u") (c6_oracle 1000).traf =
      some (trafilatura_build (py "u") (trafDataN 1000) (py "t") false) := rfl
  simp only [ht] at hok
  rw [if_neg (by rw [hwc]; omega)] at hok
  exact absurd hok (by simp)

/-- Flattening mapped lists is mapping the flattened list. -/
theorem flatten_map_comm {α β : Type} (f : α → β) :
    ∀ L : List (List α), (L.map (List.map f)).flatten = L.flatten.map f
  | [] => rfl
  | a :: L => by
      simp only [List.map_cons, List.flatten_cons, List.map_append,
        flatten_map_comm f L]

/-- C5: with a positive worker count, `process_batch` slices the article
list into contiguous sub-batches whose in-order concatenation is the input
list, every sub-batch except possibly the final one having length exactly
`max_workers` (the size `_calculate_optimal_batch_size` returns regardless
of the article count), and the reported results are the per-article results
concatenated sub-batch by sub-batch in input order under a completed
status. -/
theorem C5_process_batch_partition
    (outcome : FeedModelE → Except PyErr ProcessingResultE)
    (max_workers : Nat) (articles : List FeedModelE) (h : 0 < max_workers) :
    ∃ subs : List (List FeedModelE),
      create_sub_batches articles
        (calculate_optimal_batch_size max_workers articles.length) = .ok subs ∧
      subs.flatten = articles ∧
      (∀ b ∈ subs.dropLast, b.length = max_workers) ∧
      (∀ b ∈ subs, b ≠ [] ∧ b.length ≤ max_workers) ∧
      (process_batch outcome max_workers articles).results =
        articles.map (task_result outcome) ∧
      (process_batch outcome max_workers articles).status = py "completed" := by
  have hne : max_workers ≠ 0 := Nat.pos_iff_ne_zero.mp h
  have hcreate : create_sub_batches articles
      (calculate_optimal_batch_size max_workers articles.length) =
      .ok (chunk_slices max_workers (Nat.pos_of_ne_zero hne) articles) := by
    unfold create_sub_batches calculate_optimal_batch_size
    rw [dif_neg hne]
  refine ⟨chunk_slices max_workers (Nat.pos_of_ne_zero hne) articles, hcreate,
    chunk_slices_flatten max_workers (Nat.pos_of_ne_zero hne) articles,
    chunk_slices_full max_workers (Nat.pos_of_ne_zero hne) articles,
    chunk_slices_sizes max_workers (Nat.pos_of_ne_zero hne) articles, ?_, ?_⟩
  · unfold process_batch
    simp only [hcreate]
    show (((chunk_slices max_workers (Nat.pos_of_ne_zero hne) articles).map
        (process_sub_batch outcome)).map (fun s => s.results)).flatten =
      articles.map (task_result outcome)
    rw [List.map_map]
    show ((chunk_slices max_workers (Nat.pos_of_ne_zero hne) articles).map
        (fun b => b.map (task_result outcome))).flatten =
      articles.map (task_result outcome)
    rw [flatten_map_comm, chunk_slices_flatten]
  · unfold process_batch
    simp [hcreate]

/-- Per-article outcome oracle used by the batch witness. -/
def c5_outcome : FeedModelE → Except PyErr ProcessingResultE :=
  fun _ => .error .scrapingError

/-- C5 witness: the partition theorem applied to two workers and an empty
batch. -/
theorem C5_witness :
    0 < 2 ∧
    (∃ subs : List (List FeedModelE),
      create_sub_batches ([] : List FeedModelE)
        (calculate_optimal_batch_size 2 (List.length ([] : List FeedModelE))) =
          .ok subs ∧
      subs.flatten = [] ∧
      (∀ b ∈ subs.dropLast, b.length = 2) ∧
      (∀ b ∈ subs, b ≠ [] ∧ b.length ≤ 2) ∧
      (process_batch c5_outcome 2 []).results =
        List.map (task_result c5_outcome) [] ∧
      (process_batch c5_outcome 2 []).status = py "completed") :=
  ⟨by decide, C5_process_batch_partition c5_outcome 2 [] (by decide)⟩

/-- The pre-shuffle provider order has no duplicates. -/
theorem provider_order_base_nodup (enabled : ProvidersE → Bool) :
    (provider_order_base enabled).Nodup := by
  unfold provider_order_base
  cases h1 : enabled .google <;> cases h2 : enabled .freeapi <;>
    cases h3 : enabled .mymemory <;> simp [h1, h2, h3]

/-- C4: `translate` is total — every provider exception is caught by the
loop or by `_try_provider` itself: it returns the LRU-cached string on a
hit, otherwise the value of the first succeeding provider of the shuffled
order, and `None` when every provider is disabled for the session, has an
open circuit, or fails; an empty or non-string provider response is a
provider failure (its body raises `RuntimeError`), never a result. -/
theorem C4_translate_total (st : TransState) (now : ℚ)
    (order : List ProvidersE) (behave : ProvidersE → BodyOutcome)
    (text source target0 : PyStr) (proxies : List PyStr)
    (_htext : text ≠ [])
    (horder : order.Perm (provider_order_base st.providers_enabled)) :
    ((tm_translate st now order behave text source target0 proxies).1 =
      (match (cache_get st.cache
          (pyStrip text, source, if target0 = [] then py "en" else target0)).1 with
       | some cached => some cached
       | none =>
          (order.find? (fun p => provider_succeeds st now behave p)).bind
            (provider_value behave))) ∧
    (∀ p : ProvidersE,
      behave p = .result (.str []) ∨ behave p = .result .nonString →
        provider_succeeds st now behave p = false) := by
  have hnd : order.Nodup :=
    horder.nodup_iff.mpr (provider_order_base_nodup st.providers_enabled)
  constructor
  · simp only [tm_translate]
    rcases hcg : cache_get st.cache
        (pyStrip text, source, if target0 = [] then py "en" else target0)
      with ⟨o, cache'⟩
    rcases o with _ | cached
    · simp only [hcg]
      exact translate_loop_spec _ behave now order _ hnd
    · simp [hcg]
  · intro p hp
    rcases hp with hp | hp <;>
      simp [provider_succeeds, try_provider_body, hp]

/-- Singleton translation-manager state at start-up: empty cache, all
providers enabled, closed circuits. -/
def stTrivial : TransState :=
  { cache := [], providers_enabled := fun _ => true,
    circuits := fun _ => { fail_count := 0, open_until := 0 } }

/-- C4 witness: the totality theorem applied to the fresh state's
unshuffled order, a non-empty text and providers that all raise. -/
theorem C4_witness :
    (py "hi" ≠ []) ∧
    (provider_order_base stTrivial.providers_enabled).Perm
      (provider_order_base stTrivial.providers_enabled) ∧
    ((tm_translate stTrivial 0 (provider_order_base stTrivial.providers_enabled)
        (fun _ => BodyOutcome.raises) (py "hi") (py "auto") (py "en") []).1 =
      (match (cache_get stTrivial.cache
          (pyStrip (py "hi"), py "auto",
            if py "en" = [] then py "en" else py "en")).1 with
       | some cached => some cached
       | none =>
          ((provider_order_base stTrivial.providers_enabled).find?
            (fun p =>
              provider_succeeds stTrivial 0 (fun _ => BodyOutcome.raises) p)).bind
            (provider_value (fun _ => BodyOutcome.raises)))) :=
  ⟨by decide, List.Perm.refl _,
    (C4_translate_total stTrivial 0 (provider_order_base stTrivial.providers_enabled)
      (fun _ => BodyOutcome.raises) (py "hi") (py "auto") (py "en") []
      (by decide) (List.Perm.refl _)).1⟩

/-- C3 counterexample: an upstream success whose fetch-and-validate pass
yields zero proxies (empty data list) returns the empty list after exactly
one fetch and no sleep — not the claimed second fetch after a 2-second
sleep. -/
theorem C3_counterexample :
    (get_proxies true (.http200 true []) (fun _ => true)).result = .ok [] ∧
    (get_proxies true (.http200 true []) (fun _ => true)).fetch_count = 1 ∧
    ¬ ((get_proxies true (.http200 true []) (fun _ => true)).fetch_count = 2 ∧
       (get_proxies true (.http200 true []) (fun _ => true)).sleep_secs = [2]) := by
  refine ⟨rfl, rfl, ?_⟩
  intro hc
  have h1 : (get_proxies true (.http200 true []) (fun _ => true)).fetch_count = 1 :=
    rfl
  rw [h1] at hc
  exact absurd hc.1 (by omega)

/-- C3 (amended): when one fetch-and-validate pass yields zero proxies —
the upstream returns an empty data list, or validation passes none of
them — the service returns the empty list immediately after that single
fetch, with no retry, no sleep and no error. -/
theorem C3_empty_pass_immediate (data : List PyStr) (probe : PyStr → Bool)
    (h : data = [] ∨ validate_proxies probe data = []) :
    get_proxies true (.http200 true data) probe =
      { result := .ok [], fetch_count := 1, sleep_secs := [] } := by
  show (if data = []
      then ({ result := .ok [], fetch_count := 1, sleep_secs := [] } : FetchTrace)
      else { result := .ok (validate_proxies probe data), fetch_count := 1,
             sleep_secs := [] }) =
    { result := .ok [], fetch_count := 1, sleep_secs := [] }
  rcases h with h | h
  · rw [if_pos h]
  · by_cases hd : data = []
    · rw [if_pos hd]
    · rw [if_neg hd, h]

/-- C3 witness: the immediate-return theorem applied to an upstream success
with an empty data list. -/
theorem C3_witness :
    (([] : List PyStr) = [] ∨ validate_proxies (fun _ => true) [] = []) ∧
    get_proxies true (.http200 true []) (fun _ => true) =
      { result := .ok [], fetch_count := 1, sleep_secs := [] } :=
  ⟨Or.inl rfl, C3_empty_pass_immediate [] (fun _ => true) (Or.inl rfl)⟩

/-- C2 evaluation: the identifiers are not preserved.  The extractors build
the replacement `ExtractResult` without passing `id` or `parent_id`, so a
successful scraping step hands every later step a record whose identifiers
are the pydantic defaults — the empty string — and no later step writes
them: for an input article with non-empty `id` and `flashpoint_id`, the
record replacing the seeded one in `process_article` violates the claimed
equalities from step 1 on. -/
theorem C2_scrape_discards_ids (o : PipelineOracle) (article : FeedModelE)
    (d1 : ExtractResultE)
    (hscrape : extract_feed article.url o.scrape = .ok d1) :
    d1.id = [] ∧ d1.parent_id = [] ∧
    (article.id ≠ [] → d1.id ≠ article.id) ∧
    (article.flashpoint_id ≠ [] → d1.parent_id ≠ article.flashpoint_id) := by
  obtain ⟨h1, h2⟩ := extract_feed_ok_id article.url o.scrape d1 hscrape
  refine ⟨h1, h2, ?_, ?_⟩
  · intro hne hc
    rw [h1] at hc
    exact hne hc.symm
  · intro hne hc
    rw [h2] at hc
    exact hne hc.symm

/-- Concrete input article with non-empty identifiers. -/
def pipe_article : FeedModelE :=
  { id := py "a1", url := py "https://example.com/x", title := py "T",
    flashpoint_id := py "fp1", source_country := py "US" }

/-- Concrete pipeline oracle: a 1001-word trafilatura page, English
detection, available proxies and trivial downstream services. -/
def pipe_oracle : PipelineOracle :=
  { scrape := { proxy_cache := .ok [py "1.2.3.4:80"],
                traf := some (trafDataN 1001, py "t", false) },
    detected_langs := [py "en"],
    step3_proxies := .ok [],
    translation := none,
    ner := nerTrivial, rx := rxTrivial, entity_enabled := true,
    ner_loaded := true, geo := .ok [], images_found := [],
    downloaded := .ok [] }

/-- The concrete oracle's scraping step succeeds with the 1001-word page. -/
theorem pipe_scrape_ok :
    extract_feed pipe_article.url pipe_oracle.scrape =
      .ok (trafilatura_build pipe_article.url (trafDataN 1001) (py "t") false) := by
  unfold extract_feed
  show (if ([py "1.2.3.4:80"] : List PyStr) = []
      then (Except.error PyErr.scrapingError : Except PyErr ExtractResultE)
      else scrape_multilang_feeds pipe_article.url pipe_oracle.scrape) = _
  rw [if_neg (by decide)]
  unfold scrape_multilang_feeds
  show (if 1000 <
        (trafilatura_build pipe_article.url (trafDataN 1001) (py "t") false).word_count
      then (Except.ok (trafilatura_build pipe_article.url (trafDataN 1001)
        (py "t") false) : Except PyErr ExtractResultE)
      else .error .scrapingError) = _
  have hwc := trafilatura_build_word_count pipe_article.url (py "t") 1001 (by omega)
  rw [if_pos (by rw [hwc]; omega)]

/-- C2 witness: the discarded-identifier theorem applied to the concrete
article and oracle. -/
theorem C2_witness :
    (extract_feed pipe_article.url pipe_oracle.scrape =
      .ok (trafilatura_build pipe_article.url (trafDataN 1001) (py "t") false)) ∧
    (trafilatura_build pipe_article.url (trafDataN 1001) (py "t") false).id = [] ∧
    (trafilatura_build pipe_article.url (trafDataN 1001) (py "t") false).parent_id
      = [] :=
  ⟨pipe_scrape_ok,
   (C2_scrape_discards_ids pipe_oracle pipe_article _ pipe_scrape_ok).1,
   (C2_scrape_discards_ids pipe_oracle pipe_article _ pipe_scrape_ok).2.1⟩

/-- C1 evaluation: the geotagging step does not fail soft.  The pipeline
calls `extract_geographic_entities` with three positional arguments against
a one-required-one-optional signature, so the call raises `TypeError`
before the geotagger body could run (its own lack of a handler aside), and
`_geotag_article` has no handler either: for every article whose scraping
and title-translation steps succeed, `process_article` reports status
"failed" with no enriched data and the `TypeError` recorded — never
"completed" with empty `geo_entities`. -/
theorem C1_geotag_marks_failed (o : PipelineOracle) (article : FeedModelE)
    (d1 d3 : ExtractResultE)
    (hscrape : extract_feed article.url o.scrape = .ok d1)
    (htrans : translate_title o (set_extracted_language o.detected_langs d1) =
      .ok d3) :
    (process_article o article).status = py "failed" ∧
    (process_article o article).enriched_data = none ∧
    (process_article o article).errors = [err_message .typeError] := by
  refine ⟨?_, ?_, ?_⟩ <;>
    simp [process_article, hscrape, htrans, geotag_article_raises, failed_result]

/-- Record produced by the scraping step on the concrete oracle. -/
def pipe_d1 : ExtractResultE :=
  trafilatura_build pipe_article.url (trafDataN 1001) (py "t") false

/-- Record after the language-setting step on the concrete oracle. -/
def pipe_d2 : ExtractResultE :=
  set_extracted_language pipe_oracle.detected_langs pipe_d1

/-- The concrete oracle's title-translation step succeeds (the detected
language is English, so the title is copied verbatim). -/
theorem pipe_trans_ok :
    translate_title pipe_oracle pipe_d2 =
      .ok { pipe_d2 with title_en := pipe_d2.title } := by
  unfold translate_title
  rw [if_pos (show pipe_d2.language = py "en" from rfl)]

/-- C1 witness: the failure theorem applied to the concrete article and
oracle, whose scraping and title-translation steps succeed. -/
theorem C1_witness :
    (extract_feed pipe_article.url pipe_oracle.scrape = .ok pipe_d1) ∧
    (translate_title pipe_oracle
        (set_extracted_language pipe_oracle.detected_langs pipe_d1) =
      .ok { pipe_d2 with title_en := pipe_d2.title }) ∧
    (process_article pipe_oracle pipe_article).status = py "failed" :=
  ⟨pipe_scrape_ok, pipe_trans_ok,
    (C1_geotag_marks_failed pipe_oracle pipe_article pipe_d1
      { pipe_d2 with title_en := pipe_d2.title } pipe_scrape_ok pipe_trans_ok).1⟩
